import Mathlib

/-!
# gostrich: function chaining (`chain.go`)

A shallow embedding of `chain.go` and theorems about it.

* Links and results are Go `interface{}` values (`Value`).
* `Build` inspects its links through package `reflect`; the parts of `reflect`
  it relies on (`ValueOf`, `Kind`, `Type`, `Interface`, `Call`) are modelled
  here from the package documentation.
* The builder methods (`Compose`, `Then`, `MergeCompose`, `MergeThen`) work on
  Go slices, modelled as headers into a heap of backing arrays, so that
  in-place `append` is visible.
-/

namespace Gostrich

/-! ## Values -/

/-- A `reflect.Type`, compared by identity as `==` does on `reflect.Type`.
`func`, `iface` and `other` carry a code naming the type. -/
inductive GoType
  | int
  | string
  | varArgs
  | func (code : Nat)
  | iface (code : Nat)
  | other (code : Nat)
  deriving DecidableEq

/-- What `Build` reads off the type of a function value: the identity of the
function type, the number of non-variadic parameters, and the element type of
the variadic parameter when there is one. -/
structure FuncSig where
  code : Nat
  fixed : Nat
  variadic : Option GoType
  deriving DecidableEq

/-- Number of declared parameters, `Type().NumIn()`: a trailing variadic
parameter counts as one. -/
def FuncSig.NumIn (sig : FuncSig) : Nat :=
  match sig.variadic with
  | none => sig.fixed
  | some _ => sig.fixed + 1

/-- The method `Type().IsVariadic()`. -/
def FuncSig.IsVariadic (sig : FuncSig) : Bool :=
  sig.variadic.isSome

/-- A Go `interface{}` value: `nil`, or a dynamic type with its data.
Function values carry their signature and an identifier under which the
environment gives their behaviour. -/
inductive Value
  | nil
  | int (n : Int)
  | str (s : String)
  | varArgs (k : Int)
  | func (sig : FuncSig) (id : Nat)
  | other (ty : Nat) (data : Nat)
  deriving DecidableEq

/-- A `reflect.Value`: the zero Value, or a type together with the value that
`Interface()` returns. For the result of `reflect.ValueOf` the type is the
dynamic type; for a result of `Call` it is the declared result type of the
callee, which may be an interface type. -/
inductive ReflectValue
  | zero
  | mk (typ : GoType) (iface : Value)
  deriving DecidableEq

/-- How a `Build` call can end other than by returning. -/
inductive Failure
  /-- The panic "Gost: Build with incomplete chain" of chain.go:119. -/
  | incompleteChain
  /-- Package reflect panics: `Interface` or `Type` called on the zero Value. -/
  | zeroValue
  /-- Go run-time panics: `makeslice: len out of range`, index out of range. -/
  | runtimeError
  /-- A panic raised inside `value.Call`. -/
  | callPanic
  deriving DecidableEq

/-- The kinds `Build` distinguishes. -/
inductive Kind
  | Invalid
  | Func
  | Interface
  | Other
  deriving DecidableEq

/-- The function `reflect.ValueOf`: the zero Value for a nil interface,
otherwise the value under its dynamic type. -/
def ValueOf (v : Value) : ReflectValue :=
  match v with
  | .nil => .zero
  | .int _ => .mk .int v
  | .str _ => .mk .string v
  | .varArgs _ => .mk .varArgs v
  | .func sig _ => .mk (.func sig.code) v
  | .other ty _ => .mk (.other ty) v

/-- The kind of a type. -/
def GoType.Kind (t : GoType) : Kind :=
  match t with
  | .func _ => .Func
  | .iface _ => .Interface
  | _ => .Other

/-- The method `reflect.Value.Kind`; `Invalid` on the zero Value. -/
def ReflectValue.Kind (v : ReflectValue) : Kind :=
  match v with
  | .zero => .Invalid
  | .mk t _ => t.Kind

/-- The method `reflect.Value.Interface`; panics on the zero Value. -/
def ReflectValue.Interface (v : ReflectValue) : Except Failure Value :=
  match v with
  | .zero => .error .zeroValue
  | .mk _ i => .ok i

/-- The method `reflect.Value.Type`; panics on the zero Value. -/
def ReflectValue.Type (v : ReflectValue) : Except Failure GoType :=
  match v with
  | .zero => .error .zeroValue
  | .mk t _ => .ok t

/-- The typed content of a valid `reflect.Value`. -/
def ReflectValue.content (v : ReflectValue) : Option (GoType × Value) :=
  match v with
  | .zero => none
  | .mk t i => some (t, i)

/-- The typed contents of a list of `reflect.Value`s, `none` if one of them is
the zero Value. -/
def contents : List ReflectValue → Option (List (GoType × Value))
  | [] => some []
  | v :: vs =>
    match v.content, contents vs with
    | some t, some ts => some (t :: ts)
    | _, _ => none

/-- The valid `reflect.Value` with the given type and content. -/
def ofTyped (t : GoType × Value) : ReflectValue :=
  .mk t.1 t.2

/-- Behaviour of the function values: for an identifier and the arguments
(each with the type it is passed under) either the results, each with its
declared result type, or `none` when the call panics. -/
abbrev Env := Nat → List (GoType × Value) → Option (List (GoType × Value))

/-- The method `reflect.Value.Call`: panics on too few or too many arguments
and on a zero Value argument; otherwise runs the function. -/
def Call (env : Env) (sig : FuncSig) (id : Nat) (args : List ReflectValue) :
    Except Failure (List ReflectValue) :=
  if args.length < sig.fixed then .error .callPanic
  else if sig.IsVariadic = false ∧ sig.fixed < args.length then .error .callPanic
  else
    match contents args with
    | none => .error .callPanic
    | some typed =>
      match env id typed with
      | none => .error .callPanic
      | some rets => .ok (rets.map ofTyped)

deriving instance DecidableEq for Except

/-! ## Machine integers -/

/-- Go `int` arithmetic (64 bits): the result of an operation, wrapped into
`[-2^63, 2^63)`. -/
def wrapInt (x : Int) : Int :=
  (x + 9223372036854775808) % 18446744073709551616 - 9223372036854775808

/-! ## `Build` -/

/-- The loops of the shape
`dst := make([]T, m); for j, x := range src { dst[m - 1 - j] = x }`,
started at index `j` on the destination `dst`. -/
def reverseFill {α : Type} (m : Nat) : Nat → List α → List α → List α
  | _, [], dst => dst
  | j, x :: src, dst => reverseFill m (j + 1) src (dst.set (m - 1 - j) x)

/-- The loop of chain.go:112,
`for n - m >= 0 && stack[n-m].Type() == variadicType { m++ }`,
with `i = n - m + 1` the number of stack slots not yet examined (zero when
`n - m < 0`). The counter stays within `[0, n + 1]` and is kept exact. -/
def greedy (variadicType : GoType) (stack : List ReflectValue) : Nat → Nat → Except Failure Nat
  | 0, m => .ok m
  | i + 1, m =>
    match stack[i]? with
    | none => .error .runtimeError
    | some v =>
      match v.Type with
      | .error e => .error e
      | .ok t => if t = variadicType then greedy variadicType stack i (m + 1) else .ok m

/-- Lines 105-117 of chain.go: the stack (with a `VarArgs` marker on top
removed) and the number `m` of arguments to take from it. -/
def resolveArgs (sig : FuncSig) (stack : List ReflectValue) :
    Except Failure (List ReflectValue × Int) :=
  let n := stack.length
  let m := sig.NumIn
  match sig.variadic with
  | none => .ok (stack, m)
  | some variadicType =>
    if n = 0 then .ok (stack, m)
    else
      match stack[n - 1]? with
      | none => .error .runtimeError
      | some top =>
        match top.Interface with
        | .error e => .error e
        | .ok (.varArgs variadicNo) =>
          .ok (stack.take (n - 1), wrapInt (wrapInt (m + variadicNo) - 1))
        | .ok _ =>
          match greedy variadicType stack (n + 1 - m) m with
          | .error e => .error e
          | .ok m1 => .ok (stack, (m1 : Int) - 1)

/-- The `case reflect.Func` branch of `Build` (chain.go:105-131) for the
function value `func sig id` on the given stack. The difference `n - m` is a
Go `int`, wrapped because `m` may come from a `VarArgs` count of any size;
`make([]reflect.Value, m)` panics on a negative `m`. -/
def callFunc (env : Env) (sig : FuncSig) (id : Nat) (stack0 : List ReflectValue) :
    Except Failure (List ReflectValue) :=
  match resolveArgs sig stack0 with
  | .error e => .error e
  | .ok (stack, m) =>
    let n : Int := stack.length
    let d := wrapInt (n - m)
    if d < 0 then .error .incompleteChain
    else if m < 0 then .error .runtimeError
    else
      let args := reverseFill m.toNat 0 (stack.drop d.toNat) (List.replicate m.toNat .zero)
      match Call env sig id args with
      | .error e => .error e
      | .ok rets =>
        let p := rets.length
        let reverseRets := reverseFill p 0 rets (List.replicate p .zero)
        .ok (stack.take d.toNat ++ reverseRets)

/-- One iteration of the loop of `Build` (chain.go:102-134): a function
value is called, any other link is pushed. -/
def step (env : Env) (link : Value) (stack : List ReflectValue) :
    Except Failure (List ReflectValue) :=
  match link with
  | .func sig id => callFunc env sig id stack
  | _ => .ok (stack ++ [ValueOf link])

/-- The loop of `Build` (chain.go:101-135) started on `stack`: the links are
visited from the last to the first. -/
def evalLinks (env : Env) (stack : List ReflectValue) : List Value → Except Failure (List ReflectValue)
  | [] => .ok stack
  | link :: rest =>
    match evalLinks env stack rest with
    | .error e => .error e
    | .ok s => step env link s

/-- The calls `value.Interface()` of chain.go:138-140, in stack order. -/
def interfaces : List ReflectValue → Except Failure (List Value)
  | [] => .ok []
  | v :: vs =>
    match v.Interface with
    | .error e => .error e
    | .ok i =>
      match interfaces vs with
      | .error e => .error e
      | .ok is => .ok (i :: is)

/-- The method `Build` (chain.go:99-142) on a chain with the given links. The
slice returned comes from `make`, so it is never the nil slice; it is given
by its elements. -/
def Build (env : Env) (links : List Value) : Except Failure (List Value) :=
  match evalLinks env [] links with
  | .error e => .error e
  | .ok stack =>
    match interfaces stack with
    | .error e => .error e
    | .ok vals =>
      let n := vals.length
      .ok (reverseFill n 0 vals (List.replicate n .nil))

/-- The result of `Build` with the type each value carries on the evaluation
stack: the final stack read from the top. -/
def typedResult (env : Env) (links : List Value) : Except Failure (List (GoType × Value)) :=
  match evalLinks env [] links with
  | .error e => .error e
  | .ok stack =>
    match contents stack with
    | none => .error .zeroValue
    | some ts => .ok ts.reverse

/-- The dynamic type of an interface value, `none` for the nil interface. -/
def dynType (v : Value) : Option GoType :=
  (ValueOf v).content.map Prod.fst

/-! ## Slices and the builder methods -/

/-- A `[]interface{}` slice header. All slices of `chain.go` start at the
first element of their backing array, so a header is the backing array
(`none` for the nil slice) and the length; the capacity is the length of
the backing array. -/
structure Slice where
  arr : Option Nat
  len : Nat
  deriving DecidableEq

/-- The backing arrays allocated so far, by address. -/
abbrev Heap := List (List Value)

/-- The whole backing array of a slice. -/
def Slice.array (h : Heap) (s : Slice) : List Value :=
  match s.arr with
  | none => []
  | some a => h.getD a []

/-- The builtin `cap`. -/
def Slice.cap (h : Heap) (s : Slice) : Nat :=
  (s.array h).length

/-- The elements of a slice: the first `len` cells of its backing array. -/
def Slice.elems (h : Heap) (s : Slice) : List Value :=
  (s.array h).take s.len

/-- A slice header is well formed in a heap: its backing array is allocated
and at least as long as the slice. -/
def Slice.WF (h : Heap) (s : Slice) : Prop :=
  match s.arr with
  | none => s.len = 0
  | some a => a < h.length ∧ s.len ≤ (h.getD a []).length

instance (h : Heap) (s : Slice) : Decidable (s.WF h) := by
  unfold Slice.WF
  cases s.arr <;> infer_instance

/-- The nil slice. -/
def nilSlice : Slice := { arr := none, len := 0 }

/-- The builtin `make([]interface{}, n)`: a fresh array of `n` nil interfaces. -/
def make (h : Heap) (n : Nat) : Heap × Slice :=
  (h ++ [List.replicate n Value.nil], { arr := some h.length, len := n })

/-- The builtin `append(s, xs...)`. When the capacity suffices the new
elements are written into the backing array of `s`, after its length.
Otherwise a new array is allocated, of capacity at least the new length
(`grow` is the growth policy of the run time, given the old capacity and the
length needed), and the elements of `s` are copied to it. -/
def append (grow : Nat → Nat → Nat) (h : Heap) (s : Slice) (xs : List Value) : Heap × Slice :=
  let newLen := s.len + xs.length
  if newLen ≤ s.cap h then
    match s.arr with
    | none => (h, s)
    | some a =>
      (h.set a ((h.getD a []).take s.len ++ xs ++ (h.getD a []).drop newLen),
        { arr := some a, len := newLen })
  else
    let newCap := max newLen (grow (s.cap h) newLen)
    (h ++ [s.elems h ++ xs ++ List.replicate (newCap - newLen) Value.nil],
      { arr := some h.length, len := newLen })

/-- The growth policy of the Go run time for small slices: the length needed
if it exceeds twice the old capacity, else twice the old capacity. -/
def goGrow (oldCap newLen : Nat) : Nat :=
  if 2 * oldCap < newLen then newLen else 2 * oldCap

/-- The loop `for i, x := range src { s[n - 1 - i] = x }` with `n = len(s)`. -/
def Slice.fillReversed (h : Heap) (s : Slice) (src : List Value) : Heap :=
  match s.arr with
  | none => h
  | some a => h.set a (reverseFill s.len 0 src (h.getD a []))

/-- A chain: its `links` slice. -/
structure Chain where
  links : Slice
  deriving DecidableEq

/-- The function `New`: the chain whose links are the nil slice. -/
def New : Chain := { links := nilSlice }

/-- The method `Compose` (chain.go:27-29). The variadic parameter `links` is
only read; it is given by its elements. -/
def Chain.Compose (grow : Nat → Nat → Nat) (h : Heap) (c : Chain) (links : List Value) :
    Heap × Chain :=
  let r := append grow h c.links links
  (r.1, { links := r.2 })

/-- The method `Then` (chain.go:35-44). -/
def Chain.Then (grow : Nat → Nat → Nat) (h : Heap) (c : Chain) (links : List Value) :
    Heap × Chain :=
  let n := links.length
  let r0 : Heap × Slice :=
    if n > 0 then
      let r := make h n
      (r.2.fillReversed r.1 links, r.2)
    else (h, nilSlice)
  let r := append grow r0.1 r0.2 (c.links.elems r0.1)
  (r.1, { links := r.2 })

/-- The method `MergeCompose` (chain.go:51-57): the links of each chain are
read when its turn comes. -/
def Chain.MergeCompose (grow : Nat → Nat → Nat) (h : Heap) (c : Chain) (chains : List Chain) :
    Heap × Chain :=
  chains.foldl
    (fun (result : Heap × Chain) chain =>
      result.2.Compose grow result.1 (chain.links.elems result.1))
    (h, { links := c.links })

/-- The method `MergeThen` (chain.go:64-75). The slice `reverse` of
chain.go:67-70 is filled and never read: the second loop ranges over
`chains`. -/
def Chain.MergeThen (grow : Nat → Nat → Nat) (h : Heap) (c : Chain) (chains : List Chain) :
    Heap × Chain :=
  let n := chains.length
  let _reverse := reverseFill n 0 (chains.map some) (List.replicate n none)
  chains.foldl
    (fun (result : Heap × Chain) chain =>
      result.2.Then grow result.1 (chain.links.elems result.1))
    (h, { links := c.links })

/-- The links of a chain, as a sequence. -/
def Chain.seq (h : Heap) (c : Chain) : List Value :=
  c.links.elems h

/-! ## Test fixtures of `chain_test.go` -/

/-- Signature `func(a int, ns ...int) int`. -/
def varFuncSig : FuncSig := { code := 1, fixed := 1, variadic := some .int }

/-- Signature `func() int`. -/
def simpleFuncSig : FuncSig := { code := 2, fixed := 0, variadic := none }

/-- Signature `func(a, b, c, d int) (int, int, int, int)`. -/
def f1Sig : FuncSig := { code := 3, fixed := 4, variadic := none }

/-- Signature `func(a, b int) int`. -/
def f2Sig : FuncSig := { code := 4, fixed := 2, variadic := none }

/-- Signature `func(a, b, c int) (int, int)`. -/
def f3Sig : FuncSig := { code := 5, fixed := 3, variadic := none }

/-- Signature `func(a int)`. -/
def fSig : FuncSig := { code := 6, fixed := 1, variadic := none }

/-- Signature `func() interface{}`. -/
def anyFuncSig : FuncSig := { code := 7, fixed := 0, variadic := none }

/-- The integers among the arguments, or `none` if one is not passed as `int`. -/
def intArgs : List (GoType × Value) → Option (List Int)
  | [] => some []
  | (.int, .int n) :: rest => (intArgs rest).map (n :: ·)
  | _ => none

/-- The functions of the tests, by identifier:
1 `varFunc`, 2 `simpleFunc`, 3 `f1`, 4 `f2`, 5 `f3`, 6 `f` (no result),
7 a `func() interface{}` returning the int 1. -/
def testEnv : Env := fun id args =>
  match id, intArgs args with
  | 1, some (a :: ns) => some [(.int, .int ((ns.map (a * ·)).sum))]
  | 2, some [] => some [(.int, .int 3)]
  | 3, some [a, b, c, d] => some [(.int, .int a), (.int, .int b), (.int, .int c), (.int, .int d)]
  | 4, some [a, b] => some [(.int, .int (a + b))]
  | 5, some [a, b, c] => some [(.int, .int (a * b)), (.int, .int (b * c))]
  | 6, some [_] => some []
  | 7, some [] => some [(.iface 0, .int 1)]
  | _, _ => none

def varFunc : Value := .func varFuncSig 1
def simpleFunc : Value := .func simpleFuncSig 2
def f1 : Value := .func f1Sig 3
def f2 : Value := .func f2Sig 4
def f3 : Value := .func f3Sig 5
def f : Value := .func fSig 6
def anyFunc : Value := .func anyFuncSig 7


/-! ## Views used in the statements -/

/-- The evaluation stack whose values, read from the top, are `T`. -/
def stackOf (T : List (GoType × Value)) : List ReflectValue :=
  (T.map ofTyped).reverse

/-- The call `value.Call(args)` seen on typed arguments: the checks of
`reflect.Value.Call` on the number of arguments, then the function itself. -/
def invoke (env : Env) (sig : FuncSig) (id : Nat) (A : List (GoType × Value)) :
    Except Failure (List (GoType × Value)) :=
  if A.length < sig.fixed then .error .callPanic
  else if sig.IsVariadic = false ∧ sig.fixed < A.length then .error .callPanic
  else
    match env id A with
    | none => .error .callPanic
    | some rets => .ok rets

/-- Length of the longest run of values carrying the type `vt` in `T`, from
index `start`. -/
def runLength (vt : GoType) (start : Nat) (T : List (GoType × Value)) : Nat :=
  ((T.drop start).takeWhile (fun tv => decide (tv.1 = vt))).length

/-- The greedy rule as the specification words it, on the values of a
result `R`: `g` is the length of the longest run of values of `R` from index
`p - 1` whose (dynamic) type is the element type; the function is invoked on
the first `p - 1 + g` values and its results are followed by the rest. -/
def greedyBySpec (env : Env) (sig : FuncSig) (id : Nat) (vt : GoType) (R : List Value) :
    Except Failure (List Value) :=
  let g := ((R.drop (sig.NumIn - 1)).takeWhile (fun v => decide (dynType v = some vt))).length
  match contents ((R.take (sig.NumIn - 1 + g)).map ValueOf) with
  | none => .error .callPanic
  | some args =>
    match env id args with
    | none => .error .callPanic
    | some rets => .ok (rets.map Prod.snd ++ R.drop (sig.NumIn - 1 + g))

/-! ## Chains of `chain_test.go` and of the doc comments -/

/-- The chain `New().Compose(0)`, in an empty heap. -/
def chain0 : Heap × Chain := New.Compose goGrow [] [.int 0]

/-- The chain `chain1 := New().Compose(1, 2)`, allocated after `chain0`. -/
def chain12 : Heap × Chain := New.Compose goGrow chain0.1 [.int 1, .int 2]

/-- The chain `chain2 := New().Compose(3, 4)`, allocated after `chain12`. -/
def chain34 : Heap × Chain := New.Compose goGrow chain12.1 [.int 3, .int 4]

/-- The chain `d := New().Compose(1, 2, 3).Compose(4)`: four links in a
backing array of capacity six. -/
def chainD : Heap × Chain :=
  let r := New.Compose goGrow [] [.int 1, .int 2, .int 3]
  r.2.Compose goGrow r.1 [.int 4]

/-- The chain `e := d.Compose(5)`. -/
def chainE : Heap × Chain := chainD.2.Compose goGrow chainD.1 [.int 5]

/-- The chain `x := New().Compose(9)`, allocated after `e`. -/
def chainX : Heap × Chain := New.Compose goGrow chainE.1 [.int 9]

/-- The example of the doc comment of `MergeThen` (chain.go:61-63):
`Chain([f, g]).MergeThen(Chain([h, k]), Chain([l, m]))`, the three chains
composed from `New()` one after the other in an empty heap. -/
def mergeThenExample (grow : Nat → Nat → Nat) (f g h k l m : Value) : Heap × Chain :=
  let cfg := New.Compose grow [] [f, g]
  let chk := New.Compose grow cfg.1 [h, k]
  let clm := New.Compose grow chk.1 [l, m]
  cfg.2.MergeThen grow clm.1 [chk.2, clm.2]

/-! ## Further views and fixtures -/

/-- The argument buffer of chain.go:121-124 for a call that takes `m` values
off `stack`: `args[m-1-j] = stack[n-m+j]`. -/
def callArgs (stack : List ReflectValue) (m : Nat) : List ReflectValue :=
  reverseFill m 0 (stack.drop (stack.length - m)) (List.replicate m ReflectValue.zero)

/-- The binding of step 4e of the specification, as worded: argument position
1 is the deepest of the `m` popped values, the next positions go up the
stack. -/
def argsByStep4e (stack : List ReflectValue) (m : Nat) : List ReflectValue :=
  stack.drop (stack.length - m)

/-- The method `Build` on a chain in a heap. `Build` reads `c.links` and writes
to no backing array of links; when it returns, the result is a new array
(the `make` of chain.go:137). After a panic the heap is as it was. -/
def Chain.Build (env : Env) (h : Heap) (c : Chain) : Heap × Except Failure Slice :=
  match Gostrich.Build env (c.links.elems h) with
  | .error e => (h, .error e)
  | .ok vals => (h ++ [vals], .ok { arr := some h.length, len := vals.length })

/-- Signature `func(ns ...int)`: the variadic parameter is the only one. -/
def variadicOnlySig : FuncSig := { code := 8, fixed := 0, variadic := some .int }

/-- An environment in which every call returns normally, with no results. -/
def returningEnv : Env := fun _ _ => some []

/-- The evaluation stack after the links `2, 4, 8` of `[f3, 2, 4, 8]`: `8` was
pushed first and lies deepest, `2` was pushed last and lies on top. -/
def stack842 : List ReflectValue :=
  [.mk .int (.int 8), .mk .int (.int 4), .mk .int (.int 2)]

/-- The chain `New().Compose(f)` of `TestIncompleteBuildShouldPanic`, in an
empty heap. -/
def chainF : Heap × Chain := New.Compose goGrow [] [f]

/-! ## Auxiliary lemmas -/

theorem drop_set_self {α : Type} (x : α) :
    ∀ (l : List α) (k : Nat), k < l.length → (l.set k x).drop k = x :: l.drop (k + 1) := by
  intro l
  induction l with
  | nil => intro k h; simp at h
  | cons a l ih =>
    intro k h
    cases k with
    | zero => simp
    | succ k => simpa using ih k (by simpa using h)

theorem reverseFill_spec {α : Type} (m : Nat) (src : List α) :
    ∀ (j : Nat) (dst : List α), j + src.length = m → dst.length = m →
      reverseFill m j src dst = src.reverse ++ dst.drop src.length := by
  induction src with
  | nil => intro j dst _ _; simp [reverseFill]
  | cons x xs ih =>
    intro j dst hj hd
    simp only [reverseFill, List.length_cons] at hj ⊢
    have hidx : m - 1 - j = xs.length := by omega
    rw [ih (j + 1) _ (by omega) (by simp [hd]), hidx,
      drop_set_self x dst xs.length (by omega)]
    simp

theorem reverseFill_eq_reverse {α : Type} (xs : List α) (d : α) :
    reverseFill xs.length 0 xs (List.replicate xs.length d) = xs.reverse := by
  rw [reverseFill_spec xs.length xs 0 _ (by simp) (by simp)]
  simp

theorem wrapInt_of_range (x : Int) (h1 : -9223372036854775808 ≤ x) (h2 : x < 9223372036854775808) :
    wrapInt x = x := by
  unfold wrapInt
  omega

theorem contents_map_ofTyped (ts : List (GoType × Value)) : contents (ts.map ofTyped) = some ts := by
  induction ts with
  | nil => rfl
  | cons t ts ih => simp [contents, ih, ofTyped, ReflectValue.content]

theorem contents_eq_some {S : List ReflectValue} {ts : List (GoType × Value)}
    (h : contents S = some ts) : S = ts.map ofTyped := by
  induction S generalizing ts with
  | nil => simp [contents] at h; subst h; rfl
  | cons v vs ih =>
    cases v with
    | zero => simp [contents, ReflectValue.content] at h
    | mk t i =>
      cases hvs : contents vs with
      | none => simp [contents, ReflectValue.content, hvs] at h
      | some us =>
        simp [contents, ReflectValue.content, hvs] at h
        subst h
        simp [ih hvs, ofTyped]

theorem interfaces_map_ofTyped (ts : List (GoType × Value)) :
    interfaces (ts.map ofTyped) = .ok (ts.map Prod.snd) := by
  induction ts with
  | nil => rfl
  | cons t ts ih => simp [interfaces, ih, ofTyped, ReflectValue.Interface]

theorem interfaces_eq_ok {S : List ReflectValue} {vals : List Value}
    (h : interfaces S = .ok vals) : ∃ ts, contents S = some ts ∧ ts.map Prod.snd = vals := by
  induction S generalizing vals with
  | nil => simp [interfaces] at h; subst h; exact ⟨[], rfl, rfl⟩
  | cons v vs ih =>
    cases v with
    | zero => simp [interfaces, ReflectValue.Interface] at h
    | mk t i =>
      cases hvs : interfaces vs with
      | error e => simp [interfaces, ReflectValue.Interface, hvs] at h
      | ok is =>
        simp [interfaces, ReflectValue.Interface, hvs] at h
        obtain ⟨ts, hts, hmap⟩ := ih hvs
        exact ⟨(t, i) :: ts, by simp [contents, ReflectValue.content, hts], by simp [hmap, h]⟩

theorem interfaces_eq_error {S : List ReflectValue} {e : Failure}
    (h : interfaces S = .error e) : contents S = none ∧ e = .zeroValue := by
  induction S generalizing e with
  | nil => simp [interfaces] at h
  | cons v vs ih =>
    cases v with
    | zero => simp [interfaces, ReflectValue.Interface] at h; simp [contents, ReflectValue.content, h]
    | mk t i =>
      cases hvs : interfaces vs with
      | error e2 =>
        simp [interfaces, ReflectValue.Interface, hvs] at h
        obtain ⟨h1, h2⟩ := ih hvs
        subst h
        simp [contents, h1, h2]
      | ok is => simp [interfaces, ReflectValue.Interface, hvs] at h

/-- `Build` returns the values of `typedResult`, and fails as it does. -/
theorem Build_eq_typedResult (env : Env) (links : List Value) :
    Build env links = (typedResult env links).map (List.map Prod.snd) := by
  unfold Build typedResult
  cases hS : evalLinks env [] links with
  | error e => rfl
  | ok S =>
    simp only
    cases hI : interfaces S with
    | error e =>
      obtain ⟨h1, h2⟩ := interfaces_eq_error hI
      simp [h1, h2, Except.map]
    | ok vals =>
      obtain ⟨ts, hts, hmap⟩ := interfaces_eq_ok hI
      subst hmap
      have hrev := reverseFill_eq_reverse (ts.map Prod.snd) Value.nil
      simp only [List.length_map] at hrev
      simp [hts, Except.map, hrev]

theorem stackOf_length (T : List (GoType × Value)) : (stackOf T).length = T.length := by
  simp [stackOf]

theorem stackOf_cons (x : GoType × Value) (T : List (GoType × Value)) :
    stackOf (x :: T) = stackOf T ++ [ofTyped x] := by
  simp [stackOf]

theorem stackOf_append (A B : List (GoType × Value)) :
    stackOf (A ++ B) = stackOf B ++ stackOf A := by
  simp [stackOf]

theorem contents_stackOf (T : List (GoType × Value)) : contents (stackOf T) = some T.reverse := by
  rw [stackOf, ← List.map_reverse, contents_map_ofTyped]

theorem stackOf_take (T : List (GoType × Value)) (k : Nat) (hk : k ≤ T.length) :
    (stackOf T).take (T.length - k) = stackOf (T.drop k) := by
  rw [stackOf, stackOf, List.take_reverse]
  simp only [List.length_map]
  congr 1
  rw [← List.map_drop]
  congr 1
  congr 1
  omega

theorem stackOf_drop (T : List (GoType × Value)) (k : Nat) (hk : k ≤ T.length) :
    ((stackOf T).drop (T.length - k)).reverse = (T.take k).map ofTyped := by
  rw [stackOf, List.drop_reverse]
  simp only [List.length_map, List.reverse_reverse]
  rw [← List.map_take]
  congr 1
  congr 1
  omega

theorem stackOf_getElem? (T : List (GoType × Value)) (i : Nat) (hi : i < T.length) :
    (stackOf T)[i]? = (T[T.length - 1 - i]?).map ofTyped := by
  rw [stackOf, List.getElem?_reverse (by simpa using hi)]
  simp

theorem Call_map_ofTyped (env : Env) (sig : FuncSig) (id : Nat) (A : List (GoType × Value)) :
    Call env sig id (A.map ofTyped) = (invoke env sig id A).map (List.map ofTyped) := by
  unfold Call invoke
  simp only [List.length_map, contents_map_ofTyped]
  split
  · rfl
  · split
    · rfl
    · cases env id A <;> rfl

theorem typedResult_ok_iff (env : Env) (L : List Value) (T : List (GoType × Value)) :
    typedResult env L = .ok T ↔ evalLinks env [] L = .ok (stackOf T) := by
  unfold typedResult
  constructor
  · intro h
    cases hS : evalLinks env [] L with
    | error e => simp [hS] at h
    | ok S =>
      cases hc : contents S with
      | none => simp [hS, hc] at h
      | some ts =>
        simp [hS, hc] at h
        subst h
        simp [stackOf, contents_eq_some hc]
  · intro h
    simp [h, contents_stackOf]

theorem typedResult_cons (env : Env) (link : Value) (L : List Value) (T : List (GoType × Value))
    (h : typedResult env L = .ok T) :
    typedResult env (link :: L) =
      match step env link (stackOf T) with
      | .error e => .error e
      | .ok S =>
        match contents S with
        | none => .error .zeroValue
        | some ts => .ok ts.reverse := by
  rw [typedResult_ok_iff] at h
  simp [typedResult, evalLinks, h]

theorem callFunc_resolved (env : Env) (sig : FuncSig) (id : Nat) (S0 : List ReflectValue)
    (T : List (GoType × Value)) (k : Nat)
    (hres : resolveArgs sig S0 = .ok (stackOf T, (k : Int)))
    (hk : k ≤ T.length) (hT : T.length < 9223372036854775808) :
    callFunc env sig id S0 =
      (invoke env sig id (T.take k)).map (fun rets => stackOf (rets ++ T.drop k)) := by
  unfold callFunc
  simp only [hres, stackOf_length]
  have hd : wrapInt ((T.length : Int) - (k : Int)) = ((T.length - k : Nat) : Int) := by
    rw [wrapInt_of_range _ (by omega) (by omega)]
    omega
  rw [hd]
  have h1 : ¬ (((T.length - k : Nat) : Int) < 0) := by omega
  have h2 : ¬ ((k : Int) < 0) := by omega
  simp only [h1, h2, if_false, Int.toNat_ofNat]
  have hlen : ((stackOf T).drop (T.length - k)).length = k := by
    simp [stackOf_length]; omega
  have hargs : reverseFill k 0 ((stackOf T).drop (T.length - k)) (List.replicate k ReflectValue.zero)
      = (T.take k).map ofTyped := by
    have := reverseFill_eq_reverse ((stackOf T).drop (T.length - k)) ReflectValue.zero
    rw [hlen] at this
    rw [this, stackOf_drop T k hk]
  rw [hargs, Call_map_ofTyped]
  cases invoke env sig id (T.take k) with
  | error e => rfl
  | ok rets =>
    simp only [Except.map]
    have := reverseFill_eq_reverse (rets.map ofTyped) ReflectValue.zero
    rw [this, stackOf_take T k hk, stackOf_append]
    rfl

theorem callFunc_short (env : Env) (sig : FuncSig) (id : Nat) (S0 : List ReflectValue)
    (T : List (GoType × Value)) (k : Nat)
    (hres : resolveArgs sig S0 = .ok (stackOf T, (k : Int)))
    (hk : T.length < k) (hk2 : k < 9223372036854775808) :
    callFunc env sig id S0 = .error .incompleteChain := by
  unfold callFunc
  simp only [hres, stackOf_length]
  rw [wrapInt_of_range _ (by omega) (by omega)]
  have : ((T.length : Int) - (k : Int)) < 0 := by omega
  simp [this]

theorem typedResult_func (env : Env) (sig : FuncSig) (id : Nat) (L : List Value)
    (T T1 : List (GoType × Value)) (k : Nat)
    (hL : typedResult env L = .ok T)
    (hres : resolveArgs sig (stackOf T) = .ok (stackOf T1, (k : Int)))
    (hk : k ≤ T1.length) (hT : T1.length < 9223372036854775808) :
    typedResult env (.func sig id :: L) =
      (invoke env sig id (T1.take k)).map (fun rets => rets ++ T1.drop k) := by
  rw [typedResult_cons env _ L T hL]
  simp only [step]
  rw [callFunc_resolved env sig id _ T1 k hres hk hT]
  cases invoke env sig id (T1.take k) with
  | error e => rfl
  | ok rets => simp [Except.map, contents_stackOf]

theorem typedResult_func_short (env : Env) (sig : FuncSig) (id : Nat) (L : List Value)
    (T T1 : List (GoType × Value)) (k : Nat)
    (hL : typedResult env L = .ok T)
    (hres : resolveArgs sig (stackOf T) = .ok (stackOf T1, (k : Int)))
    (hk : T1.length < k) (hk2 : k < 9223372036854775808) :
    typedResult env (.func sig id :: L) = .error .incompleteChain := by
  rw [typedResult_cons env _ L T hL]
  simp only [step]
  rw [callFunc_short env sig id _ T1 k hres hk hk2]

theorem runLength_le (vt : GoType) (start : Nat) (T : List (GoType × Value)) :
    start + runLength vt start T ≤ max start T.length := by
  unfold runLength
  have := (List.takeWhile_sublist (l := T.drop start)
    (fun tv : GoType × Value => decide (tv.1 = vt))).length_le
  simp only [List.length_drop] at this
  omega

theorem resolveArgs_nonvariadic (sig : FuncSig) (S : List ReflectValue)
    (hnv : sig.variadic = none) : resolveArgs sig S = .ok (S, (sig.fixed : Int)) := by
  simp [resolveArgs, hnv, FuncSig.NumIn]

theorem resolveArgs_marker (sig : FuncSig) (vt t : GoType) (k : Int) (T : List (GoType × Value))
    (hv : sig.variadic = some vt) :
    resolveArgs sig (stackOf ((t, Value.varArgs k) :: T)) =
      .ok (stackOf T, wrapInt (wrapInt (((sig.fixed + 1 : Nat) : Int) + k) - 1)) := by
  have hlen : (stackOf ((t, Value.varArgs k) :: T)).length = T.length + 1 := by
    simp [stackOf_length]
  have htop : (stackOf ((t, Value.varArgs k) :: T))[T.length]? = some (ofTyped (t, Value.varArgs k)) := by
    rw [stackOf_cons, List.getElem?_append_right (by simp [stackOf_length])]
    simp [stackOf_length]
  have htake : (stackOf ((t, Value.varArgs k) :: T)).take T.length = stackOf T := by
    rw [stackOf_cons, List.take_left' (stackOf_length T)]
  simp only [resolveArgs, hv, FuncSig.NumIn, hlen]
  rw [if_neg (by omega)]
  simp only [Nat.add_sub_cancel]
  rw [htop, htake]
  simp only [ofTyped, ReflectValue.Interface]

theorem greedy_stackOf (vt : GoType) (T : List (GoType × Value)) :
    ∀ (i m : Nat), i ≤ T.length →
      greedy vt (stackOf T) i m = .ok (m + runLength vt (T.length - i) T) := by
  intro i
  induction i with
  | zero => intro m _; simp [greedy, runLength]
  | succ i ih =>
    intro m hi
    have hlt : T.length - (i + 1) < T.length := by omega
    have hdrop : T.drop (T.length - (i + 1)) = T[T.length - (i + 1)] :: T.drop (T.length - i) := by
      rw [List.drop_eq_getElem_cons hlt]
      congr 2
      omega
    have hget : (stackOf T)[i]? = some (ofTyped T[T.length - (i + 1)]) := by
      rw [stackOf_getElem? T i (by omega)]
      have : T.length - 1 - i = T.length - (i + 1) := by omega
      rw [this, List.getElem?_eq_getElem hlt]
      rfl
    simp only [greedy, hget, ofTyped, ReflectValue.Type]
    by_cases hty : (T[T.length - (i + 1)]).1 = vt
    · rw [if_pos hty, ih (m + 1) (by omega)]
      simp only [runLength, hdrop, List.takeWhile_cons, hty, decide_True, if_true, List.length_cons]
      congr 1
      omega
    · rw [if_neg hty]
      simp [runLength, hdrop, List.takeWhile_cons, hty]

theorem resolveArgs_greedy (sig : FuncSig) (vt : GoType) (x : GoType × Value)
    (T : List (GoType × Value)) (hv : sig.variadic = some vt)
    (hx : ∀ k, x.2 ≠ Value.varArgs k) :
    resolveArgs sig (stackOf (x :: T)) =
      .ok (stackOf (x :: T), ((sig.fixed + runLength vt sig.fixed (x :: T) : Nat) : Int)) := by
  have hlen : (stackOf (x :: T)).length = T.length + 1 := by simp [stackOf_length]
  have htop : (stackOf (x :: T))[T.length]? = some (ofTyped x) := by
    rw [stackOf_cons, List.getElem?_append_right (by simp [stackOf_length])]
    simp [stackOf_length]
  have hg := greedy_stackOf vt (x :: T) (T.length + 1 + 1 - (sig.fixed + 1)) (sig.fixed + 1)
    (by simp only [List.length_cons]; omega)
  have hrun : runLength vt ((x :: T).length - (T.length + 1 + 1 - (sig.fixed + 1))) (x :: T)
      = runLength vt sig.fixed (x :: T) := by
    by_cases hle : sig.fixed ≤ T.length + 1
    · congr 1
      simp only [List.length_cons]
      omega
    · have h1 : (x :: T).length - (T.length + 1 + 1 - (sig.fixed + 1)) = T.length + 1 := by
        simp only [List.length_cons]; omega
      rw [h1]
      unfold runLength
      rw [List.drop_eq_nil_of_le (by simp), List.drop_eq_nil_of_le (by simp; omega)]
  rw [hrun] at hg
  obtain ⟨t, v⟩ := x
  cases v with
  | varArgs k => exact absurd rfl (hx k)
  | _ =>
    simp only [resolveArgs, hv, FuncSig.NumIn, hlen]
    rw [if_neg (by omega)]
    simp only [Nat.add_sub_cancel]
    rw [htop]
    simp only [ofTyped, ReflectValue.Interface, hg]
    congr 2
    push_cast
    omega

theorem Build_ok_iff (env : Env) (L : List Value) (R : List Value) :
    Build env L = .ok R ↔ ∃ T, typedResult env L = .ok T ∧ T.map Prod.snd = R := by
  rw [Build_eq_typedResult]
  cases typedResult env L with
  | error e => simp [Except.map]
  | ok T => simp [Except.map]

theorem invoke_eq_env (env : Env) (sig : FuncSig) (id : Nat) (A : List (GoType × Value))
    (h1 : sig.fixed ≤ A.length) (h2 : sig.variadic = none → A.length ≤ sig.fixed) :
    invoke env sig id A =
      match env id A with
      | none => .error .callPanic
      | some rets => .ok rets := by
  unfold invoke
  rw [if_neg (by omega)]
  by_cases hv : sig.variadic = none
  · have := h2 hv
    rw [if_neg (by omega)]
  · rw [if_neg]
    simp only [FuncSig.IsVariadic, not_and]
    intro h
    cases hvar : sig.variadic with
    | none => exact absurd hvar hv
    | some t => simp [hvar] at h

theorem Build_func_of_resolve (env : Env) (sig : FuncSig) (id : Nat) (L : List Value)
    (T T1 : List (GoType × Value)) (k : Nat)
    (hL : typedResult env L = .ok T)
    (hres : resolveArgs sig (stackOf T) = .ok (stackOf T1, (k : Int)))
    (hk : k ≤ T1.length) (hT : T1.length < 9223372036854775808)
    (h1 : sig.fixed ≤ k) (h2 : sig.variadic = none → k ≤ sig.fixed) :
    Build env (.func sig id :: L) =
      match env id (T1.take k) with
      | none => .error .callPanic
      | some rets => .ok (rets.map Prod.snd ++ (T1.map Prod.snd).drop k) := by
  rw [Build_eq_typedResult, typedResult_func env sig id L T T1 k hL hres hk hT,
    invoke_eq_env env sig id _ (by simp; omega) (by intro h; simp; have := h2 h; omega)]
  cases env id (T1.take k) with
  | none => rfl
  | some rets => simp [Except.map, List.map_drop]


theorem getD_append_left (h ext : Heap) (a : Nat) (ha : a < h.length) :
    (h ++ ext).getD a [] = h.getD a [] := by
  simp [List.getD_eq_getElem?_getD, List.getElem?_append_left ha]

theorem getD_append_new (h : Heap) (v : List Value) :
    (h ++ [v]).getD h.length [] = v := by
  simp [List.getD_eq_getElem?_getD]

theorem getD_set_self (h : Heap) (a : Nat) (v : List Value) (ha : a < h.length) :
    (h.set a v).getD a [] = v := by
  simp [List.getD_eq_getElem?_getD, ha]

theorem set_getD_self (h : Heap) (a : Nat) (ha : a < h.length) :
    h.set a (h.getD a []) = h := by
  apply List.ext_getElem (by simp)
  intro i h1 h2
  by_cases hia : a = i
  · subst hia
    simp [List.getD_eq_getElem?_getD, List.getElem?_eq_getElem ha]
  · simp [List.getElem_set_ne hia]

theorem Slice.WF_append (h ext : Heap) (s : Slice) (hs : s.WF h) : s.WF (h ++ ext) := by
  unfold Slice.WF at hs ⊢
  cases ha : s.arr with
  | none => simpa [ha] using hs
  | some a =>
    simp only [ha] at hs ⊢
    rw [getD_append_left h ext a hs.1]
    exact ⟨by simp; omega, hs.2⟩

theorem Slice.elems_append (h ext : Heap) (s : Slice) (hs : s.WF h) :
    s.elems (h ++ ext) = s.elems h := by
  unfold Slice.WF at hs
  unfold Slice.elems Slice.array
  cases ha : s.arr with
  | none => rfl
  | some a =>
    simp only [ha] at hs ⊢
    rw [getD_append_left h ext a hs.1]

theorem Slice.elems_length (h : Heap) (s : Slice) (hs : s.WF h) : (s.elems h).length = s.len := by
  unfold Slice.WF at hs
  unfold Slice.elems Slice.array
  cases ha : s.arr with
  | none => simp [ha] at hs ⊢; omega
  | some a =>
    simp only [ha] at hs ⊢
    simp only [List.length_take]
    omega

theorem append_elems (grow : Nat → Nat → Nat) (h : Heap) (s : Slice) (xs : List Value)
    (hs : s.WF h) :
    (append grow h s xs).2.elems (append grow h s xs).1 = s.elems h ++ xs := by
  have hlen := Slice.elems_length h s hs
  unfold append
  simp only
  split
  · rename_i hcap
    cases ha : s.arr with
    | none =>
      simp only [Slice.cap, Slice.array, ha, List.length_nil, Nat.le_zero] at hcap
      have hx : xs = [] := by
        apply List.eq_nil_of_length_eq_zero; omega
      simp [hx]
    | some a =>
      unfold Slice.WF at hs
      simp only [ha] at hs
      simp only [Slice.elems, Slice.array, ha]
      rw [getD_set_self h a _ hs.1, List.append_assoc, List.take_append_eq_append_take]
      simp only [List.length_take, Nat.min_eq_left hs.2]
      rw [List.take_of_length_le (by simp only [List.length_take]; omega),
        List.take_append_eq_append_take]
      simp
  · simp only [Slice.elems, Slice.array]
    rw [getD_append_new]
    rw [List.append_assoc, List.take_append_eq_append_take]
    simp only [Slice.elems, Slice.array] at hlen
    rw [hlen, List.take_of_length_le (by omega), List.take_append_eq_append_take]
    simp

theorem append_WF (grow : Nat → Nat → Nat) (h : Heap) (s : Slice) (xs : List Value)
    (hs : s.WF h) :
    (append grow h s xs).2.WF (append grow h s xs).1 := by
  have hlen := Slice.elems_length h s hs
  unfold append
  simp only
  split
  · rename_i hcap
    cases ha : s.arr with
    | none => simpa [Slice.WF, ha] using hs
    | some a =>
      unfold Slice.WF at hs
      simp only [ha] at hs
      simp only [Slice.cap, Slice.array, ha] at hcap
      simp only [Slice.WF, List.length_set]
      rw [getD_set_self h a _ hs.1]
      refine ⟨hs.1, ?_⟩
      simp only [List.length_append, List.length_take, List.length_drop]
      omega
  · simp only [Slice.WF]
    rw [getD_append_new]
    simp
    omega

theorem Compose_seq (grow : Nat → Nat → Nat) (h : Heap) (c : Chain) (ls : List Value)
    (hc : c.links.WF h) :
    (c.Compose grow h ls).2.seq (c.Compose grow h ls).1 = c.seq h ++ ls := by
  simp only [Chain.Compose, Chain.seq]
  exact append_elems grow h c.links ls hc

theorem Compose_WF (grow : Nat → Nat → Nat) (h : Heap) (c : Chain) (ls : List Value)
    (hc : c.links.WF h) :
    (c.Compose grow h ls).2.links.WF (c.Compose grow h ls).1 := by
  simp only [Chain.Compose]
  exact append_WF grow h c.links ls hc

theorem nilSlice_WF (h : Heap) : nilSlice.WF h := by
  simp [Slice.WF, nilSlice]

theorem nilSlice_elems (h : Heap) : nilSlice.elems h = [] := by
  simp [Slice.elems, Slice.array, nilSlice]

/-- The first part of `Then`: the slice `reverse` and the heap holding it. -/
theorem Then_reverse (h : Heap) (ls : List Value) :
    ∃ (h1 : Heap) (rev : Slice),
      (if ls.length > 0 then ((make h ls.length).2.fillReversed (make h ls.length).1 ls,
          (make h ls.length).2) else (h, nilSlice)) = (h1, rev) ∧
      (∃ ext, h1 = h ++ ext) ∧ rev.WF h1 ∧ rev.elems h1 = ls.reverse ∧ rev.cap h1 = rev.len := by
  by_cases hn : ls.length > 0
  · refine ⟨h ++ [ls.reverse], { arr := some h.length, len := ls.length }, ?_, ⟨_, rfl⟩, ?_, ?_, ?_⟩
    · rw [if_pos hn]
      simp only [make, Slice.fillReversed]
      rw [getD_append_new, reverseFill_eq_reverse]
      simp
    · simp only [Slice.WF]
      rw [getD_append_new]
      simp
    · simp only [Slice.elems, Slice.array]
      rw [getD_append_new]
      simp
    · simp only [Slice.cap, Slice.array]
      rw [getD_append_new]
      simp
  · refine ⟨h, nilSlice, ?_, ⟨[], by simp⟩, nilSlice_WF h, ?_, ?_⟩
    · rw [if_neg hn]
    · have : ls = [] := by
        apply List.eq_nil_of_length_eq_zero; omega
      simp [this, nilSlice_elems]
    · simp [Slice.cap, Slice.array, nilSlice]

/-- Appending to a slice without spare capacity leaves the existing arrays as they are. -/
theorem append_full_extends (grow : Nat → Nat → Nat) (h : Heap) (s : Slice) (xs : List Value)
    (hs : s.WF h) (hfull : s.cap h = s.len) :
    ∃ ext, (append grow h s xs).1 = h ++ ext := by
  unfold append
  simp only
  split
  · rename_i hcap
    have hx : xs = [] := by
      apply List.eq_nil_of_length_eq_zero; omega
    cases ha : s.arr with
    | none => exact ⟨[], by simp⟩
    | some a =>
      refine ⟨[], ?_⟩
      unfold Slice.WF at hs
      simp only [ha] at hs
      simp only [Slice.cap, Slice.array, ha] at hfull
      subst hx
      simp only [List.length_nil, Nat.add_zero, List.append_nil, List.take_append_drop]
      rw [set_getD_self h a hs.1]
  · exact ⟨_, rfl⟩

theorem Then_spec (grow : Nat → Nat → Nat) (h : Heap) (c : Chain) (ls : List Value)
    (hc : c.links.WF h) :
    (c.Then grow h ls).2.seq (c.Then grow h ls).1 = ls.reverse ++ c.seq h ∧
    (c.Then grow h ls).2.links.WF (c.Then grow h ls).1 ∧
    ∃ ext, (c.Then grow h ls).1 = h ++ ext := by
  obtain ⟨h1, rev, heq, ⟨ext1, hext1⟩, hwf, helems, hfull⟩ := Then_reverse h ls
  simp only [Chain.Then, Chain.seq]
  rw [heq]
  simp only
  have hce : c.links.elems h1 = c.links.elems h := by
    rw [hext1]; exact Slice.elems_append h ext1 c.links hc
  refine ⟨?_, append_WF grow h1 rev _ hwf, ?_⟩
  · rw [append_elems grow h1 rev _ hwf, helems, hce]
  · obtain ⟨ext2, hext2⟩ := append_full_extends grow h1 rev (c.links.elems h1) hwf hfull
    exact ⟨ext1 ++ ext2, by rw [hext2, hext1, List.append_assoc]⟩

theorem MergeThen_fold (grow : Nat → Nat → Nat) (h0 : Heap) (chains : List Chain) :
    ∀ (h : Heap) (c : Chain), (∃ ext, h = h0 ++ ext) → c.links.WF h →
      (∀ o ∈ chains, o.links.WF h0) →
      let r := chains.foldl
        (fun (result : Heap × Chain) chain =>
          result.2.Then grow result.1 (chain.links.elems result.1)) (h, c)
      r.2.seq r.1 = (chains.reverse.map (fun o => (o.seq h0).reverse)).flatten ++ c.seq h ∧
      r.2.links.WF r.1 ∧ ∃ ext, r.1 = h0 ++ ext := by
  induction chains with
  | nil =>
    intro h c hext hc _
    simp [hc, hext]
  | cons o os ih =>
    intro h c hext hc hos
    obtain ⟨ext, hext⟩ := hext
    have ho : o.links.WF h0 := hos o (by simp)
    have hoe : o.links.elems h = o.seq h0 := by
      rw [hext]; exact Slice.elems_append h0 ext o.links ho
    obtain ⟨hseq, hwf, ext2, hext2⟩ := Then_spec grow h c (o.links.elems h) hc
    have := ih (c.Then grow h (o.links.elems h)).1 (c.Then grow h (o.links.elems h)).2
      ⟨ext ++ ext2, by rw [hext2, hext, List.append_assoc]⟩ hwf
      (fun o' ho' => hos o' (by simp [ho']))
    simp only [List.foldl_cons]
    obtain ⟨h1, h2, h3⟩ := this
    refine ⟨?_, h2, h3⟩
    rw [h1, hseq, hoe]
    simp

theorem MergeThen_seq (grow : Nat → Nat → Nat) (h : Heap) (c : Chain) (chains : List Chain)
    (hc : c.links.WF h) (hos : ∀ o ∈ chains, o.links.WF h) :
    (c.MergeThen grow h chains).2.seq (c.MergeThen grow h chains).1 =
      (chains.reverse.map (fun o => (o.seq h).reverse)).flatten ++ c.seq h := by
  exact (MergeThen_fold grow h chains h c ⟨[], by simp⟩ hc hos).1

theorem New_Compose_spec (grow : Nat → Nat → Nat) (h : Heap) (ls : List Value) :
    (New.Compose grow h ls).2.seq (New.Compose grow h ls).1 = ls ∧
    (New.Compose grow h ls).2.links.WF (New.Compose grow h ls).1 ∧
    ∃ ext, (New.Compose grow h ls).1 = h ++ ext := by
  refine ⟨?_, Compose_WF grow h New ls (nilSlice_WF h), ?_⟩
  · rw [Compose_seq grow h New ls (nilSlice_WF h)]
    simp [Chain.seq, New, nilSlice_elems]
  · simp only [Chain.Compose, New]
    exact append_full_extends grow h nilSlice ls (nilSlice_WF h)
      (by simp [Slice.cap, Slice.array, nilSlice])

/-- The `case reflect.Func` of `Build` is taken exactly by the function values. -/
theorem Kind_ValueOf_func (v : Value) :
    (ValueOf v).Kind = Kind.Func ↔ ∃ sig id, v = Value.func sig id := by
  cases v <;> simp [ValueOf, ReflectValue.Kind, GoType.Kind]

/-- A literal other than `nil` in front of a chain is returned in front of
the result of the chain. -/
theorem Build_literal_cons (env : Env) (v : Value) (L : List Value) (R : List Value)
    (hnil : v ≠ Value.nil) (hfun : ∀ sig id, v ≠ Value.func sig id)
    (hL : Build env L = .ok R) :
    Build env (v :: L) = .ok (v :: R) := by
  obtain ⟨T, hT, hR⟩ := (Build_ok_iff env L R).1 hL
  rw [Build_eq_typedResult, typedResult_cons env v L T hT]
  cases v with
  | nil => exact absurd rfl hnil
  | func sig id => exact absurd rfl (hfun sig id)
  | int n =>
    have : stackOf T ++ [ValueOf (Value.int n)] = stackOf ((GoType.int, Value.int n) :: T) := by
      rw [stackOf_cons]; rfl
    simp only [step]
    rw [this, contents_stackOf]
    simp [Except.map, hR]
  | str s =>
    have : stackOf T ++ [ValueOf (Value.str s)] = stackOf ((GoType.string, Value.str s) :: T) := by
      rw [stackOf_cons]; rfl
    simp only [step]
    rw [this, contents_stackOf]
    simp [Except.map, hR]
  | varArgs k =>
    have : stackOf T ++ [ValueOf (Value.varArgs k)]
        = stackOf ((GoType.varArgs, Value.varArgs k) :: T) := by
      rw [stackOf_cons]; rfl
    simp only [step]
    rw [this, contents_stackOf]
    simp [Except.map, hR]
  | other ty d =>
    have : stackOf T ++ [ValueOf (Value.other ty d)]
        = stackOf ((GoType.other ty, Value.other ty d) :: T) := by
      rw [stackOf_cons]; rfl
    simp only [step]
    rw [this, contents_stackOf]
    simp [Except.map, hR]

theorem getD_set_ne (h : Heap) (a b : Nat) (v : List Value) (hab : a ≠ b) :
    (h.set a v).getD b [] = h.getD b [] := by
  simp [List.getD_eq_getElem?_getD, List.getElem?_set_ne hab]

/-- An `append` leaves alone every slice on another backing array. -/
theorem append_frame (grow : Nat → Nat → Nat) (h : Heap) (s o : Slice) (xs : List Value)
    (ho : o.WF h) (hne : ∀ a, o.arr = some a → s.arr ≠ some a) :
    o.WF (append grow h s xs).1 ∧ o.elems (append grow h s xs).1 = o.elems h := by
  unfold append
  simp only
  split
  · cases hs : s.arr with
    | none => exact ⟨ho, rfl⟩
    | some a =>
      simp only
      cases hoa : o.arr with
      | none =>
        constructor
        · simpa [Slice.WF, hoa] using ho
        · simp [Slice.elems, Slice.array, hoa]
      | some b =>
        have hab : a ≠ b := by
          intro hab
          exact hne b hoa (by rw [hs, hab])
        unfold Slice.WF at ho ⊢
        simp only [hoa] at ho ⊢
        simp only [Slice.elems, Slice.array, hoa]
        rw [getD_set_ne h a b _ hab]
        exact ⟨⟨by simpa using ho.1, ho.2⟩, rfl⟩
  · exact ⟨Slice.WF_append h _ o ho, Slice.elems_append h _ o ho⟩

/-- The slice returned by `append` is on the array of its argument or on a new one. -/
theorem append_arr (grow : Nat → Nat → Nat) (h : Heap) (s : Slice) (xs : List Value) :
    ((append grow h s xs).2.arr = s.arr ∨ (append grow h s xs).2.arr = some h.length) ∧
    h.length ≤ (append grow h s xs).1.length := by
  unfold append
  simp only
  split
  · cases hs : s.arr with
    | none => exact ⟨Or.inl hs, le_refl _⟩
    | some a => exact ⟨Or.inl rfl, by simp⟩
  · exact ⟨Or.inr rfl, by simp⟩

theorem MergeCompose_fold (grow : Nat → Nat → Nat) (h0 : Heap) (c0 : Chain)
    (chains : List Chain) :
    ∀ (h : Heap) (c : Chain), h0.length ≤ h.length → c.links.WF h →
      (c.links.arr = c0.links.arr ∨ ∃ a, c.links.arr = some a ∧ h0.length ≤ a) →
      (∀ o ∈ chains, o.links.WF h0 ∧ o.links.WF h ∧ o.seq h = o.seq h0 ∧
        ∀ a, o.links.arr = some a → c0.links.arr ≠ some a) →
      let r := chains.foldl
        (fun (result : Heap × Chain) chain =>
          result.2.Compose grow result.1 (chain.links.elems result.1)) (h, c)
      r.2.seq r.1 = c.seq h ++ (chains.map (fun o => o.seq h0)).flatten := by
  induction chains with
  | nil => intro h c _ _ _ _; simp
  | cons o os ih =>
    intro h c hlen hc harr hos
    obtain ⟨ho0, ho, hoseq, hodis⟩ := hos o (by simp)
    simp only [List.foldl_cons]
    have hsep : ∀ (o' : Chain), o'.links.WF h0 →
        (∀ a, o'.links.arr = some a → c0.links.arr ≠ some a) →
        ∀ a, o'.links.arr = some a → c.links.arr ≠ some a := by
      intro o' hw hd a ha hca
      rcases harr with heq | ⟨b, hb, hge⟩
      · exact hd a ha (by rw [← heq, hca])
      · rw [hb] at hca
        cases hca
        unfold Slice.WF at hw
        simp only [ha] at hw
        omega
    have key := ih (c.Compose grow h (o.links.elems h)).1 (c.Compose grow h (o.links.elems h)).2
      (le_trans hlen (append_arr grow h c.links _).2)
      (Compose_WF grow h c _ hc)
      (by
        rcases (append_arr grow h c.links (o.links.elems h)).1 with h1 | h1
        · rcases harr with heq | ⟨b, hb, hge⟩
          · left; simp only [Chain.Compose]; rw [h1, heq]
          · right; exact ⟨b, by simp only [Chain.Compose]; rw [h1, hb], hge⟩
        · right; exact ⟨h.length, by simp only [Chain.Compose]; exact h1, hlen⟩)
      (by
        intro o' ho'
        obtain ⟨hw0, hw, hs, hd⟩ := hos o' (by simp [ho'])
        have hf := append_frame grow h c.links o'.links (o.links.elems h) hw (hsep o' hw0 hd)
        refine ⟨hw0, hf.1, ?_, hd⟩
        simp only [Chain.seq, Chain.Compose] at hs ⊢
        rw [hf.2, hs])
    simp only at key
    rw [key, Compose_seq grow h c _ hc]
    simp only [Chain.seq] at hoseq ⊢
    rw [hoseq]
    simp

/-- `MergeCompose` appends the links of the chains in the order given when
none of them lies on the backing array of the receiver. -/
theorem MergeCompose_seq (grow : Nat → Nat → Nat) (h : Heap) (c : Chain) (chains : List Chain)
    (hc : c.links.WF h)
    (hos : ∀ o ∈ chains, o.links.WF h ∧ ∀ a, o.links.arr = some a → c.links.arr ≠ some a) :
    (c.MergeCompose grow h chains).2.seq (c.MergeCompose grow h chains).1 =
      c.seq h ++ (chains.map (fun o => o.seq h)).flatten := by
  exact MergeCompose_fold grow h c chains h c (le_refl _) hc (Or.inl rfl)
    (fun o ho => ⟨(hos o ho).1, (hos o ho).1, rfl, (hos o ho).2⟩)

/-! ## Claims about `Build` -/

/-- C1, as worded, fails: `[simpleFunc, "dog"]` builds to `[3, "dog"]` and `f2`
is not variadic with two parameters, so the conditions hold, but `Build` of
`[f2, simpleFunc, "dog"]` does not return: the call of `f2` on `(3, "dog")`
panics inside `value.Call`, and `Build` fails with that panic. -/
theorem build_nonvariadic_call_counterexample :
    f2Sig.variadic = none ∧
    Build testEnv [simpleFunc, .str "dog"] = .ok [.int 3, .str "dog"] ∧
    f2Sig.NumIn ≤ [Value.int 3, Value.str "dog"].length ∧
    testEnv 4 [(.int, .int 3), (.string, .str "dog")] = none ∧
    Build testEnv [f2, simpleFunc, .str "dog"] = .error .callPanic := by
  decide

/-- C1, amended: for a chain `L` on which `Build` succeeds with result `R` and
a non-variadic function `f` with `a` declared parameters, `a ≤ length R`,
`Build` of `f` followed by `L` invokes `f` on the first `a` values of `R` in
order (each under the type it carries on the stack); when the call returns,
`Build` returns the results of `f` in their order followed by `R` without its
first `a` values; when the call panics, `Build` fails with that panic.
Lengths are those of Go slices, below `2^63`. -/
theorem build_nonvariadic_call (env : Env) (sig : FuncSig) (id : Nat) (L : List Value)
    (R : List Value)
    (hnv : sig.variadic = none)
    (hL : Build env L = .ok R)
    (ha : sig.NumIn ≤ R.length)
    (hlen : R.length < 2 ^ 63) :
    ∃ T, typedResult env L = .ok T ∧ T.map Prod.snd = R ∧
      Build env (.func sig id :: L) =
        match env id (T.take sig.NumIn) with
        | none => .error .callPanic
        | some rets => .ok (rets.map Prod.snd ++ R.drop sig.NumIn) := by
  obtain ⟨T, hT, hR⟩ := (Build_ok_iff env L R).1 hL
  refine ⟨T, hT, hR, ?_⟩
  have hN : sig.NumIn = sig.fixed := by simp [FuncSig.NumIn, hnv]
  have hTl : T.length = R.length := by rw [← hR]; simp
  rw [hN] at ha ⊢
  rw [← hR]
  exact Build_func_of_resolve env sig id L T T sig.fixed hT
    (resolveArgs_nonvariadic sig _ hnv) (by omega) (by norm_num at hlen; omega) (le_refl _)
    (fun _ => le_refl _)

/-- Scenario C of the tests: `[f1, f2, 10, 5, f3, 2, 4, 8, 100]` builds to
`[15, 8, 32, 100]`, by C1 applied to `f1` and the rest of the chain. -/
theorem build_nonvariadic_call_witness :
    f1Sig.variadic = none ∧
    Build testEnv [f2, .int 10, .int 5, f3, .int 2, .int 4, .int 8, .int 100]
      = .ok [.int 15, .int 8, .int 32, .int 100] ∧
    f1Sig.NumIn ≤ [Value.int 15, Value.int 8, Value.int 32, Value.int 100].length ∧
    (∃ T, typedResult testEnv [f2, .int 10, .int 5, f3, .int 2, .int 4, .int 8, .int 100] = .ok T ∧
      T.map Prod.snd = [.int 15, .int 8, .int 32, .int 100] ∧
      Build testEnv (.func f1Sig 3 :: [f2, .int 10, .int 5, f3, .int 2, .int 4, .int 8, .int 100]) =
        match testEnv 3 (T.take f1Sig.NumIn) with
        | none => .error .callPanic
        | some rets =>
          .ok (rets.map Prod.snd ++
            [Value.int 15, Value.int 8, Value.int 32, Value.int 100].drop f1Sig.NumIn)) ∧
    Build testEnv [f1, f2, .int 10, .int 5, f3, .int 2, .int 4, .int 8, .int 100]
      = .ok [.int 15, .int 8, .int 32, .int 100] :=
  ⟨rfl, by decide, by decide,
    build_nonvariadic_call testEnv f1Sig 3 _ _ rfl (by decide) (by decide) (by norm_num),
    by decide⟩

/-- C2, as worded, fails: with `h := func() interface{} { return 1 }` the
chain `[10, h]` builds to `[10, 1]`, a non-empty result that does not begin
with a `VarArgs` value and whose value at index 1 is an `int`, so the worded
rule has `varFunc` invoked on `(10, 1)` and the result `[10]`; `Build` of
`[varFunc, 10, h]` invokes `varFunc` on `(10)` alone and returns `[0, 1]`,
because the result of `h` carries the type `interface{}` on the stack.
Nor does `Build` always return: `["dog"]` builds to `["dog"]`, a non-empty
result of `p - 1 = 1` value that is no `VarArgs` value, and `Build` of
`[varFunc, "dog"]` fails with the panic of the call `varFunc("dog")`. -/
theorem build_variadic_greedy_counterexample :
    varFuncSig.variadic = some GoType.int ∧
    Build testEnv [.int 10, anyFunc] = .ok [.int 10, .int 1] ∧
    varFuncSig.NumIn - 1 ≤ [Value.int 10, Value.int 1].length ∧
    (∀ k, [Value.int 10, Value.int 1].head? ≠ some (Value.varArgs k)) ∧
    greedyBySpec testEnv varFuncSig 1 GoType.int [.int 10, .int 1] = .ok [.int 10] ∧
    Build testEnv [varFunc, .int 10, anyFunc] = .ok [.int 0, .int 1] ∧
    Build testEnv [varFunc, .int 10, anyFunc]
      ≠ greedyBySpec testEnv varFuncSig 1 GoType.int [.int 10, .int 1] ∧
    Build testEnv [.str "dog"] = .ok [.str "dog"] ∧
    varFuncSig.NumIn - 1 ≤ [Value.str "dog"].length ∧
    (∀ k, [Value.str "dog"].head? ≠ some (Value.varArgs k)) ∧
    Build testEnv [varFunc, .str "dog"] = .error .callPanic :=
  ⟨rfl, by decide, by decide, by intro k; simp, by decide, by decide, by decide,
    by decide, by decide, by intro k; simp, by decide⟩

/-- C2, amended: for a variadic function `f` with `p` declared parameters and
a chain `L` whose `Build` result `R` is non-empty, has at least `p - 1` values
and does not begin with a `VarArgs` value, `Build` of `f` followed by `L`
invokes `f` on the first `p - 1 + g` values of `R`; when the call returns,
`Build` returns its results followed by the remaining values; when the call
panics, `Build` fails with that panic. Here `g` is the length of the longest
run of values from index `p - 1` whose type on the evaluation stack (the
dynamic type for a literal, the declared result type for the result of a
call) equals the element type of the variadic parameter. Lengths are those
of Go slices, below `2^63`. -/
theorem build_variadic_greedy (env : Env) (sig : FuncSig) (id : Nat) (vt : GoType)
    (L : List Value) (R : List Value)
    (hv : sig.variadic = some vt)
    (hL : Build env L = .ok R)
    (hne : R ≠ [])
    (hp : sig.NumIn - 1 ≤ R.length)
    (hm : ∀ k, R.head? ≠ some (Value.varArgs k))
    (hlen : R.length < 2 ^ 63) :
    ∃ T, typedResult env L = .ok T ∧ T.map Prod.snd = R ∧
      Build env (.func sig id :: L) =
        match env id (T.take (sig.NumIn - 1 + runLength vt (sig.NumIn - 1) T)) with
        | none => .error .callPanic
        | some rets =>
          .ok (rets.map Prod.snd ++ R.drop (sig.NumIn - 1 + runLength vt (sig.NumIn - 1) T)) := by
  obtain ⟨T, hT, hR⟩ := (Build_ok_iff env L R).1 hL
  refine ⟨T, hT, hR, ?_⟩
  have hN : sig.NumIn - 1 = sig.fixed := by simp [FuncSig.NumIn, hv]
  have hTl : T.length = R.length := by rw [← hR]; simp
  rw [hN] at hp ⊢
  rw [← hR]
  cases T with
  | nil => simp at hR; exact absurd hR hne
  | cons x T' =>
    have hx : ∀ k, x.2 ≠ Value.varArgs k := by
      intro k hxk
      apply hm k
      rw [← hR]
      simp [hxk]
    have hrl := runLength_le vt sig.fixed (x :: T')
    exact Build_func_of_resolve env sig id L (x :: T') (x :: T') _ hT
      (resolveArgs_greedy sig vt x T' hv hx) (by omega) (by norm_num at hlen; omega)
      (by omega) (by intro h; rw [hv] at h; cases h)

/-- Scenario A of the tests: `[varFunc, 10, 1, 2, simpleFunc, "dog", 9]`
builds to `[60, "dog", 9]`: the rest of the chain builds to
`[10, 1, 2, 3, "dog", 9]` and the run of `int`s from index 1 has length 3. -/
theorem build_variadic_greedy_witness :
    varFuncSig.variadic = some GoType.int ∧
    Build testEnv [.int 10, .int 1, .int 2, simpleFunc, .str "dog", .int 9]
      = .ok [.int 10, .int 1, .int 2, .int 3, .str "dog", .int 9] ∧
    (∃ T, typedResult testEnv [.int 10, .int 1, .int 2, simpleFunc, .str "dog", .int 9] = .ok T ∧
      T.map Prod.snd = [.int 10, .int 1, .int 2, .int 3, .str "dog", .int 9] ∧
      Build testEnv
          (.func varFuncSig 1 :: [.int 10, .int 1, .int 2, simpleFunc, .str "dog", .int 9]) =
        match testEnv 1
          (T.take (varFuncSig.NumIn - 1 + runLength GoType.int (varFuncSig.NumIn - 1) T)) with
        | none => .error .callPanic
        | some rets =>
          .ok (rets.map Prod.snd ++
            [Value.int 10, Value.int 1, Value.int 2, Value.int 3, Value.str "dog", Value.int 9].drop
              (varFuncSig.NumIn - 1 + runLength GoType.int (varFuncSig.NumIn - 1) T))) ∧
    Build testEnv [varFunc, .int 10, .int 1, .int 2, simpleFunc, .str "dog", .int 9]
      = .ok [.int 60, .str "dog", .int 9] :=
  ⟨rfl, by decide,
    build_variadic_greedy testEnv varFuncSig 1 GoType.int _ _ rfl (by decide) (by decide)
      (by decide) (by intro k; simp) (by norm_num),
    by decide⟩

/-- C3, as worded, fails: `[10, 1, "dog"]` builds to itself, three values,
and `varFunc` has `p = 2` declared parameters, so with the count `k = 2` the
conditions hold, but `Build` of `[varFunc, VarArgs(2), 10, 1, "dog"]` does not
return: the call of `varFunc` on `(10, 1, "dog")` panics inside `value.Call`,
and `Build` fails with that panic. -/
theorem build_variadic_marker_counterexample :
    varFuncSig.variadic = some GoType.int ∧
    Build testEnv [.int 10, .int 1, .str "dog"] = .ok [.int 10, .int 1, .str "dog"] ∧
    varFuncSig.NumIn - 1 + 2 ≤ [Value.int 10, Value.int 1, Value.str "dog"].length ∧
    testEnv 1 [(.int, .int 10), (.int, .int 1), (.string, .str "dog")] = none ∧
    Build testEnv [varFunc, .varArgs 2, .int 10, .int 1, .str "dog"] = .error .callPanic := by
  decide

/-- C3, amended: for a variadic function `f` with `p` declared parameters, a
count `k ≥ 0` and a chain `L` whose `Build` result `R` has at least
`p - 1 + k` values, `Build` of `f`, `VarArgs(k)`, `L` drops the marker and
invokes `f` on exactly the first `p - 1 + k` values of `R`, whatever the
types of the values that follow; when the call returns, `Build` returns its
results followed by the remaining values of `R`; when the call panics,
`Build` fails with that panic. Lengths are those of Go slices, below
`2^63`. -/
theorem build_variadic_marker (env : Env) (sig : FuncSig) (id : Nat) (vt : GoType) (k : Nat)
    (L : List Value) (R : List Value)
    (hv : sig.variadic = some vt)
    (hL : Build env L = .ok R)
    (hk : sig.NumIn - 1 + k ≤ R.length)
    (hlen : R.length < 2 ^ 63) :
    ∃ T, typedResult env L = .ok T ∧ T.map Prod.snd = R ∧
      Build env (.func sig id :: Value.varArgs (k : Int) :: L) =
        match env id (T.take (sig.NumIn - 1 + k)) with
        | none => .error .callPanic
        | some rets => .ok (rets.map Prod.snd ++ R.drop (sig.NumIn - 1 + k)) := by
  obtain ⟨T, hT, hR⟩ := (Build_ok_iff env L R).1 hL
  refine ⟨T, hT, hR, ?_⟩
  have hN : sig.NumIn - 1 = sig.fixed := by simp [FuncSig.NumIn, hv]
  have hTl : T.length = R.length := by rw [← hR]; simp
  rw [hN] at hk ⊢
  rw [← hR]
  norm_num at hlen
  have hM : typedResult env (Value.varArgs (k : Int) :: L)
      = .ok ((GoType.varArgs, Value.varArgs k) :: T) := by
    rw [typedResult_cons env _ L T hT]
    simp only [step, ValueOf]
    have : stackOf T ++ [ReflectValue.mk GoType.varArgs (Value.varArgs k)]
        = stackOf ((GoType.varArgs, Value.varArgs (k : Int)) :: T) := by
      rw [stackOf_cons]; rfl
    rw [this, contents_stackOf]
    simp
  have hres := resolveArgs_marker sig vt GoType.varArgs (k : Int) T hv
  have hw : wrapInt (wrapInt (((sig.fixed + 1 : Nat) : Int) + (k : Int)) - 1)
      = ((sig.fixed + k : Nat) : Int) := by
    unfold wrapInt
    push_cast
    omega
  rw [hw] at hres
  exact Build_func_of_resolve env sig id _ _ T _ hM hres (by omega) (by omega) (by omega)
    (by intro h; rw [hv] at h; cases h)

/-- Scenario B of the tests: `[varFunc, VarArgs(2), 10, 1, 2, simpleFunc,
"dog", 9]` builds to `[30, 3, "dog", 9]`. -/
theorem build_variadic_marker_witness :
    varFuncSig.variadic = some GoType.int ∧
    Build testEnv [.int 10, .int 1, .int 2, simpleFunc, .str "dog", .int 9]
      = .ok [.int 10, .int 1, .int 2, .int 3, .str "dog", .int 9] ∧
    (∃ T, typedResult testEnv [.int 10, .int 1, .int 2, simpleFunc, .str "dog", .int 9] = .ok T ∧
      T.map Prod.snd = [.int 10, .int 1, .int 2, .int 3, .str "dog", .int 9] ∧
      Build testEnv (.func varFuncSig 1 :: Value.varArgs ((2 : Nat) : Int) ::
          [.int 10, .int 1, .int 2, simpleFunc, .str "dog", .int 9]) =
        match testEnv 1 (T.take (varFuncSig.NumIn - 1 + 2)) with
        | none => .error .callPanic
        | some rets =>
          .ok (rets.map Prod.snd ++
            [Value.int 10, Value.int 1, Value.int 2, Value.int 3, Value.str "dog", Value.int 9].drop
              (varFuncSig.NumIn - 1 + 2))) ∧
    Build testEnv [varFunc, .varArgs 2, .int 10, .int 1, .int 2, simpleFunc, .str "dog", .int 9]
      = .ok [.int 30, .int 3, .str "dog", .int 9] :=
  ⟨rfl, by decide,
    build_variadic_marker testEnv varFuncSig 1 GoType.int 2 _ _ rfl (by decide) (by decide)
      (by norm_num),
    by decide⟩

/-- C4: for a non-variadic function `f` with `a` declared parameters and a
chain `L` on which `Build` succeeds with `n` values, `Build` of `f` followed
by `L` fails with the IncompleteChain failure if and only if `n < a`. The
numbers are Go `int`s, below `2^63`. -/
theorem build_incomplete_iff (env : Env) (sig : FuncSig) (id : Nat) (L : List Value)
    (R : List Value)
    (hnv : sig.variadic = none)
    (hL : Build env L = .ok R)
    (hlen : R.length < 2 ^ 63) (ha : sig.NumIn < 2 ^ 63) :
    Build env (.func sig id :: L) = .error .incompleteChain ↔ R.length < sig.NumIn := by
  obtain ⟨T, hT, hR⟩ := (Build_ok_iff env L R).1 hL
  have hN : sig.NumIn = sig.fixed := by simp [FuncSig.NumIn, hnv]
  have hTl : T.length = R.length := by rw [← hR]; simp
  rw [hN] at ha ⊢
  norm_num at hlen ha
  constructor
  · intro h
    by_contra hge
    have := Build_func_of_resolve env sig id L T T sig.fixed hT
      (resolveArgs_nonvariadic sig _ hnv) (by omega) (by omega) (le_refl _) (fun _ => le_refl _)
    rw [h] at this
    cases henv : env id (T.take sig.fixed) with
    | none => simp [henv] at this
    | some rets => simp [henv] at this
  · intro h
    rw [Build_eq_typedResult, typedResult_func_short env sig id L T T sig.fixed hT
      (resolveArgs_nonvariadic sig _ hnv) (by omega) ha]
    rfl

/-- The test `TestIncompleteBuildShouldPanic`: the chain `[f]`, with `f`
taking one `int` and nothing after it, fails with IncompleteChain. -/
theorem build_incomplete_iff_witness :
    fSig.variadic = none ∧
    Build testEnv [] = .ok [] ∧
    (Build testEnv (.func fSig 6 :: []) = .error .incompleteChain ↔
      ([] : List Value).length < fSig.NumIn) ∧
    Build testEnv [f] = .error .incompleteChain :=
  ⟨rfl, by decide,
    build_incomplete_iff testEnv fSig 6 [] [] rfl (by decide) (by norm_num) (by norm_num [fSig, FuncSig.NumIn]),
    by decide⟩

/-- C5, at the failing input: the chain `New().Compose(nil)` has the single
literal link `nil`; `reflect.ValueOf(nil)` is the zero Value, on which
`Interface()` panics, so `Build` does not return `[nil]` but fails, and not
with IncompleteChain. The empty chain builds to the empty sequence. -/
theorem build_nil_literal (env : Env) :
    Build env [Value.nil] = .error .zeroValue ∧ Build env [] = .ok [] := by
  constructor <;> rfl

/-! ## Claims about the builder methods -/

/-- C6: `MergeThen(c, o1, ..., on)` has the link sequence
`reverse(on.links) ++ ... ++ reverse(o1.links) ++ c.links`; it is what `Then`
gives when applied to `c` with the links of `o1`, then to the result with the
links of `o2`, and so on in the order given. -/
theorem MergeThen_links (grow : Nat → Nat → Nat) (h : Heap) (c : Chain) (chains : List Chain)
    (hc : c.links.WF h) (hos : ∀ o ∈ chains, o.links.WF h) :
    (c.MergeThen grow h chains).2.seq (c.MergeThen grow h chains).1 =
      (chains.reverse.map (fun o => (o.seq h).reverse)).flatten ++ c.seq h ∧
    c.MergeThen grow h chains =
      chains.foldl (fun r o => r.2.Then grow r.1 (o.seq r.1)) (h, c) :=
  ⟨MergeThen_seq grow h c chains hc hos, rfl⟩

/-- The test `TestMergeThenCreatesChainWithLinksFromChainsInTheReverseOrder`:
`New().Compose(0).MergeThen(chain1, chain2)` with `chain1 = [1, 2]` and
`chain2 = [3, 4]` has the links `[4, 3, 2, 1, 0]`. -/
theorem MergeThen_links_witness :
    chain0.2.links.WF chain34.1 ∧
    (∀ o ∈ [chain12.2, chain34.2], o.links.WF chain34.1) ∧
    (chain0.2.MergeThen goGrow chain34.1 [chain12.2, chain34.2]).2.seq
        (chain0.2.MergeThen goGrow chain34.1 [chain12.2, chain34.2]).1
      = [.int 4, .int 3, .int 2, .int 1, .int 0] :=
  ⟨by decide, by decide,
    (MergeThen_links goGrow chain34.1 chain0.2 [chain12.2, chain34.2]
      (by decide) (by decide)).1.trans (by decide)⟩

/-- C8: `Then(c, ls...)` has the link sequence `reverse(ls) ++ c.links`, which
is the links of `Compose(New(), reverse(ls)...)` followed by those of `c`. -/
theorem Then_links (grow : Nat → Nat → Nat) (h : Heap) (c : Chain) (ls : List Value)
    (hc : c.links.WF h) :
    (c.Then grow h ls).2.seq (c.Then grow h ls).1 = ls.reverse ++ c.seq h ∧
    (c.Then grow h ls).2.seq (c.Then grow h ls).1 =
      (New.Compose grow h ls.reverse).2.seq (New.Compose grow h ls.reverse).1 ++ c.seq h := by
  have h1 := (Then_spec grow h c ls hc).1
  refine ⟨h1, ?_⟩
  rw [h1, Compose_seq grow h New ls.reverse (nilSlice_WF h)]
  simp [Chain.seq, New, nilSlice_elems]

/-- The test `TestThenCreatesChainWithLinksInTheReverseOrder` and the doc
comment of `Then`: `New().Then(1, 2)` has the links `[2, 1]`, and
`Chain([1, 2]).Then(3, 4)` has the links `[4, 3, 1, 2]`. -/
theorem Then_links_witness :
    New.links.WF [] ∧
    (New.Then goGrow [] [.int 1, .int 2]).2.seq (New.Then goGrow [] [.int 1, .int 2]).1
      = [.int 2, .int 1] ∧
    chain12.2.links.WF chain12.1 ∧
    (chain12.2.Then goGrow chain12.1 [.int 3, .int 4]).2.seq
        (chain12.2.Then goGrow chain12.1 [.int 3, .int 4]).1
      = [.int 4, .int 3, .int 1, .int 2] :=
  ⟨by decide,
    (Then_links goGrow [] New [.int 1, .int 2] (by decide)).1.trans (by decide),
    by decide,
    (Then_links goGrow chain12.1 chain12.2 [.int 3, .int 4] (by decide)).1.trans (by decide)⟩

/-- C9: `Compose(c, ls...)` has the link sequence `c.links ++ ls`: the new
links in the order given, each unchanged, `nil` links included. -/
theorem Compose_links (grow : Nat → Nat → Nat) (h : Heap) (c : Chain) (ls : List Value)
    (hc : c.links.WF h) :
    (c.Compose grow h ls).2.seq (c.Compose grow h ls).1 = c.seq h ++ ls :=
  Compose_seq grow h c ls hc

/-- The tests `TestComposeCreatesChainWithLinksInTheGivenOrder` and
`TestComposeAcceptsNil`: `New().Compose(1, 2)` has the links `[1, 2]` and
`New().Compose(nil)` has the single link `nil`. -/
theorem Compose_links_witness :
    New.links.WF [] ∧
    (New.Compose goGrow [] [.int 1, .int 2]).2.seq (New.Compose goGrow [] [.int 1, .int 2]).1
      = [.int 1, .int 2] ∧
    (New.Compose goGrow [] [.nil]).2.seq (New.Compose goGrow [] [.nil]).1 = [.nil] :=
  ⟨by decide,
    (Compose_links goGrow [] New [.int 1, .int 2] (by decide)).trans (by decide),
    by decide⟩

/-- C7, on the code: for all links `f, g, h, k, l, m` the chain
`Chain([f, g]).MergeThen(Chain([h, k]), Chain([l, m]))` has the links
`[m, l, k, h, f, g]`, not the `[k, h, m, l, f, g]` of the doc comment:
the loop of chain.go:71 ranges over `chains`, not over `reverse`. -/
theorem MergeThen_doc_example (grow : Nat → Nat → Nat) (f g h k l m : Value) :
    (mergeThenExample grow f g h k l m).2.seq (mergeThenExample grow f g h k l m).1
      = [m, l, k, h, f, g] := by
  obtain ⟨s1, w1, -⟩ := New_Compose_spec grow [] [f, g]
  obtain ⟨s2, w2, e2, x2⟩ := New_Compose_spec grow (New.Compose grow [] [f, g]).1 [h, k]
  obtain ⟨s3, w3, e3, x3⟩ := New_Compose_spec grow
    (New.Compose grow (New.Compose grow [] [f, g]).1 [h, k]).1 [l, m]
  simp only [mergeThenExample]
  generalize New.Compose grow [] [f, g] = cfg at *
  generalize New.Compose grow cfg.1 [h, k] = chk at *
  generalize New.Compose grow chk.1 [l, m] = clm at *
  have w1' : cfg.2.links.WF clm.1 := by
    rw [x3, x2, List.append_assoc]; exact Slice.WF_append _ _ _ w1
  have w2' : chk.2.links.WF clm.1 := by
    rw [x3]; exact Slice.WF_append _ _ _ w2
  have s1' : cfg.2.seq clm.1 = [f, g] := by
    rw [← s1, x3, x2, List.append_assoc]; exact Slice.elems_append _ _ _ w1
  have s2' : chk.2.seq clm.1 = [h, k] := by
    rw [← s2, x3]; exact Slice.elems_append _ _ _ w2
  rw [MergeThen_seq grow clm.1 cfg.2 [chk.2, clm.2] w1'
    (by intro o ho; simp at ho; rcases ho with rfl | rfl <;> assumption)]
  simp [s1', s2', s3]

/-- C10, at the failing input: `d := New().Compose(1, 2, 3).Compose(4)` has
four links in an array of capacity six, `e := d.Compose(5)` shares that array
and `x := New().Compose(9)`. Before the call the three chains have the links
`[1, 2, 3, 4]`, `[9]` and `[1, 2, 3, 4, 5]`; `d.MergeCompose(x, e)` appends
`9` in place, which overwrites the last link of `e` before it is read, and
has the links `[1, 2, 3, 4, 9, 1, 2, 3, 4, 9]`. -/
theorem MergeCompose_shared_array :
    chainD.2.links.WF chainX.1 ∧ chainX.2.links.WF chainX.1 ∧ chainE.2.links.WF chainX.1 ∧
    chainD.2.seq chainX.1 = [.int 1, .int 2, .int 3, .int 4] ∧
    chainX.2.seq chainX.1 = [.int 9] ∧
    chainE.2.seq chainX.1 = [.int 1, .int 2, .int 3, .int 4, .int 5] ∧
    (chainD.2.MergeCompose goGrow chainX.1 [chainX.2, chainE.2]).2.seq
        (chainD.2.MergeCompose goGrow chainX.1 [chainX.2, chainE.2]).1
      = [.int 1, .int 2, .int 3, .int 4, .int 9, .int 1, .int 2, .int 3, .int 4, .int 9] := by
  decide

/-- An `append` to `s` leaves alone every slice that lies on another backing
array or is not longer than `s`. -/
theorem append_frame_le (grow : Nat → Nat → Nat) (h : Heap) (s o : Slice) (xs : List Value)
    (ho : o.WF h) (hle : ∀ a, o.arr = some a → s.arr = some a → o.len ≤ s.len) :
    o.WF (append grow h s xs).1 ∧ o.elems (append grow h s xs).1 = o.elems h := by
  unfold append
  simp only
  split
  · rename_i hcap
    cases hs : s.arr with
    | none => exact ⟨ho, rfl⟩
    | some a =>
      simp only
      cases hoa : o.arr with
      | none =>
        constructor
        · simpa [Slice.WF, hoa] using ho
        · simp [Slice.elems, Slice.array, hoa]
      | some b =>
        unfold Slice.WF at ho ⊢
        simp only [hoa] at ho ⊢
        simp only [Slice.elems, Slice.array, hoa]
        by_cases hab : a = b
        · subst hab
          have hol := hle a hoa hs
          simp only [Slice.cap, Slice.array, hs] at hcap
          rw [getD_set_self h a _ ho.1]
          refine ⟨⟨by simpa using ho.1, ?_⟩, ?_⟩
          · simp only [List.length_append, List.length_take, List.length_drop]
            omega
          · rw [List.append_assoc, List.take_append_eq_append_take, List.take_take]
            simp only [List.length_take]
            have h1 : min o.len s.len = o.len := by omega
            have h2 : o.len - min s.len (List.getD h a []).length = 0 := by omega
            rw [h1, h2]
            simp
        · rw [getD_set_ne h a b _ hab]
          exact ⟨⟨by simpa using ho.1, ho.2⟩, rfl⟩
  · exact ⟨Slice.WF_append h _ o ho, Slice.elems_append h _ o ho⟩

/-- `Compose` leaves its receiver as it was. -/
theorem Compose_receiver (grow : Nat → Nat → Nat) (h : Heap) (c : Chain) (ls : List Value)
    (hc : c.links.WF h) :
    c.seq (c.Compose grow h ls).1 = c.seq h ∧ c.links.WF (c.Compose grow h ls).1 := by
  have := append_frame_le grow h c.links c.links ls hc (fun _ _ _ => le_refl _)
  exact ⟨this.2, this.1⟩

/-- `Then` writes into no array that was there before: every slice of the
heap is left as it was. -/
theorem Then_frame (grow : Nat → Nat → Nat) (h : Heap) (c : Chain) (ls : List Value)
    (hc : c.links.WF h) (o : Slice) (ho : o.WF h) :
    o.elems (c.Then grow h ls).1 = o.elems h ∧ o.WF (c.Then grow h ls).1 := by
  obtain ⟨ext, hext⟩ := (Then_spec grow h c ls hc).2.2
  rw [hext]
  exact ⟨Slice.elems_append h ext o ho, Slice.WF_append h ext o ho⟩

/-- `MergeThen` writes into no array that was there before. -/
theorem MergeThen_frame (grow : Nat → Nat → Nat) (h : Heap) (c : Chain) (chains : List Chain)
    (hc : c.links.WF h) (hos : ∀ o ∈ chains, o.links.WF h) (o : Slice) (ho : o.WF h) :
    o.elems (c.MergeThen grow h chains).1 = o.elems h ∧ o.WF (c.MergeThen grow h chains).1 := by
  obtain ⟨ext, hext⟩ := (MergeThen_fold grow h chains h c ⟨[], by simp⟩ hc hos).2.2
  have : (c.MergeThen grow h chains).1 = h ++ ext := hext
  rw [this]
  exact ⟨Slice.elems_append h ext o ho, Slice.WF_append h ext o ho⟩

theorem MergeCompose_fold_frame (grow : Nat → Nat → Nat) (o : Slice) (chains : List Chain) :
    ∀ (h : Heap) (c : Chain), c.links.WF h → o.WF h →
      (∀ a, o.arr = some a → c.links.arr = some a → o.len ≤ c.links.len) →
      let r := chains.foldl
        (fun (result : Heap × Chain) chain =>
          result.2.Compose grow result.1 (chain.links.elems result.1)) (h, c)
      o.elems r.1 = o.elems h ∧ o.WF r.1 := by
  induction chains with
  | nil => intro h c _ ho _; exact ⟨rfl, ho⟩
  | cons x xs ih =>
    intro h c hc ho hle
    simp only [List.foldl_cons]
    have hf := append_frame_le grow h c.links o (x.links.elems h) ho hle
    have harr := (append_arr grow h c.links (x.links.elems h)).1
    have hlen : c.links.len ≤ (append grow h c.links (x.links.elems h)).2.len := by
      unfold append
      simp only
      split
      · cases hs : c.links.arr <;> simp
      · simp
    have key := ih (c.Compose grow h (x.links.elems h)).1 (c.Compose grow h (x.links.elems h)).2
      (Compose_WF grow h c _ hc) hf.1
      (by
        intro a hoa hca
        simp only [Chain.Compose] at hca
        rcases harr with h1 | h1
        · rw [h1] at hca
          exact le_trans (hle a hoa hca) hlen
        · rw [h1] at hca
          cases hca
          unfold Slice.WF at ho
          simp only [hoa] at ho
          omega)
    simp only at key
    exact ⟨key.1.trans hf.2, key.2⟩

/-- `MergeCompose` leaves its receiver as it was. -/
theorem MergeCompose_receiver (grow : Nat → Nat → Nat) (h : Heap) (c : Chain)
    (chains : List Chain) (hc : c.links.WF h) :
    c.seq (c.MergeCompose grow h chains).1 = c.seq h := by
  exact (MergeCompose_fold_frame grow c.links chains h c hc hc (fun _ _ _ => le_refl _)).1

/-- A `Compose` on a chain without spare capacity writes into no array that
was there before. -/
theorem Compose_frame_full (grow : Nat → Nat → Nat) (h : Heap) (c : Chain) (ls : List Value)
    (hc : c.links.WF h) (hfull : c.links.cap h = c.links.len) (o : Slice) (ho : o.WF h) :
    o.elems (c.Compose grow h ls).1 = o.elems h := by
  obtain ⟨ext, hext⟩ := append_full_extends grow h c.links ls hc hfull
  simp only [Chain.Compose]
  rw [hext]
  exact Slice.elems_append h ext o ho

/-! ## More claims about the builder methods -/

/-- C12, at the failing input: `d := New().Compose(1, 2, 3).Compose(4)` has
four links in a backing array of capacity six. After `e1 := d.Compose(5)` the
links of `e1` are `[1, 2, 3, 4, 5]`; `e2 := d.Compose(6)` writes `6` into
the same cell of the shared array, and the links of `e1` are then
`[1, 2, 3, 4, 6]`, not `d.links ++ [5]`. -/
theorem Compose_twice_shared_array :
    chainD.2.links.WF chainD.1 ∧
    chainD.2.seq chainD.1 = [.int 1, .int 2, .int 3, .int 4] ∧
    chainD.2.links.cap chainD.1 = 6 ∧
    chainE.2.seq chainE.1 = [.int 1, .int 2, .int 3, .int 4, .int 5] ∧
    (chainD.2.Compose goGrow chainE.1 [.int 6]).2.seq (chainD.2.Compose goGrow chainE.1 [.int 6]).1
      = [.int 1, .int 2, .int 3, .int 4, .int 6] ∧
    chainE.2.seq (chainD.2.Compose goGrow chainE.1 [.int 6]).1
      = [.int 1, .int 2, .int 3, .int 4, .int 6] := by
  decide

/-- C13, at the failing input: with `d`, `e := d.Compose(5)` and
`x := New().Compose(9)` as above, the argument `e` has the links
`[1, 2, 3, 4, 5]` before the call `d.MergeCompose(x, e)` and the links
`[1, 2, 3, 4, 9]` after it; the receiver `d` and the argument `x` keep
theirs. The test `TestComposeCreatesNewChain` holds: after
`composed := chain.Compose(1)` on the empty chain, `chain` is still empty and
`composed` is `[1]`. -/
theorem MergeCompose_changes_argument :
    chainE.2.links.WF chainX.1 ∧
    chainE.2.seq chainX.1 = [.int 1, .int 2, .int 3, .int 4, .int 5] ∧
    chainE.2.seq (chainD.2.MergeCompose goGrow chainX.1 [chainX.2, chainE.2]).1
      = [.int 1, .int 2, .int 3, .int 4, .int 9] ∧
    chainD.2.seq (chainD.2.MergeCompose goGrow chainX.1 [chainX.2, chainE.2]).1
      = chainD.2.seq chainX.1 ∧
    chainX.2.seq (chainD.2.MergeCompose goGrow chainX.1 [chainX.2, chainE.2]).1
      = chainX.2.seq chainX.1 ∧
    New.seq (New.Compose goGrow [] [.int 1]).1 = [] ∧
    (New.Compose goGrow [] [.int 1]).2.seq (New.Compose goGrow [] [.int 1]).1 = [.int 1] := by
  decide

/-- C15: `Compose` with no links, `Then` with no links, `MergeCompose` with
no chains and `MergeThen` with no chains each return a chain whose link
sequence is that of the receiver. -/
theorem no_arguments_links (grow : Nat → Nat → Nat) (h : Heap) (c : Chain)
    (hc : c.links.WF h) :
    (c.Compose grow h []).2.seq (c.Compose grow h []).1 = c.seq h ∧
    (c.Then grow h []).2.seq (c.Then grow h []).1 = c.seq h ∧
    (c.MergeCompose grow h []).2.seq (c.MergeCompose grow h []).1 = c.seq h ∧
    (c.MergeThen grow h []).2.seq (c.MergeThen grow h []).1 = c.seq h := by
  refine ⟨?_, ?_, rfl, rfl⟩
  · rw [Compose_seq grow h c [] hc, List.append_nil]
  · rw [(Then_spec grow h c [] hc).1]
    rfl

/-- The tests on calls without arguments: on the empty chain `New()` all
four give the empty sequence; on `Chain([1, 2])` they give `[1, 2]`. -/
theorem no_arguments_links_witness :
    New.links.WF [] ∧
    ((New.Compose goGrow [] []).2.seq (New.Compose goGrow [] []).1 = [] ∧
      (New.Then goGrow [] []).2.seq (New.Then goGrow [] []).1 = [] ∧
      (New.MergeCompose goGrow [] []).2.seq (New.MergeCompose goGrow [] []).1 = [] ∧
      (New.MergeThen goGrow [] []).2.seq (New.MergeThen goGrow [] []).1 = []) ∧
    chain12.2.links.WF chain12.1 ∧
    (chain12.2.Compose goGrow chain12.1 []).2.seq (chain12.2.Compose goGrow chain12.1 []).1
      = [.int 1, .int 2] :=
  ⟨by decide, no_arguments_links goGrow [] New (by decide), by decide,
    (no_arguments_links goGrow chain12.1 chain12.2 (by decide)).1.trans (by decide)⟩

/-- C16: `Compose(Compose(c, L1...), L2...)` has the same link sequence as
`Compose(c, (L1 ++ L2)...)`, namely `c.links ++ L1 ++ L2`. -/
theorem Compose_Compose_links (grow : Nat → Nat → Nat) (h : Heap) (c : Chain)
    (L1 L2 : List Value) (hc : c.links.WF h) :
    ((c.Compose grow h L1).2.Compose grow (c.Compose grow h L1).1 L2).2.seq
        ((c.Compose grow h L1).2.Compose grow (c.Compose grow h L1).1 L2).1
      = (c.Compose grow h (L1 ++ L2)).2.seq (c.Compose grow h (L1 ++ L2)).1 ∧
    (c.Compose grow h (L1 ++ L2)).2.seq (c.Compose grow h (L1 ++ L2)).1
      = c.seq h ++ L1 ++ L2 := by
  rw [Compose_seq grow _ _ L2 (Compose_WF grow h c L1 hc), Compose_seq grow h c L1 hc,
    Compose_seq grow h c (L1 ++ L2) hc]
  simp

/-- On `Chain([1, 2])`: composing `3` and then `4, 5` gives `[1, 2, 3, 4, 5]`,
as composing `3, 4, 5` at once does. -/
theorem Compose_Compose_links_witness :
    chain12.2.links.WF chain12.1 ∧
    ((chain12.2.Compose goGrow chain12.1 [.int 3]).2.Compose goGrow
          (chain12.2.Compose goGrow chain12.1 [.int 3]).1 [.int 4, .int 5]).2.seq
        ((chain12.2.Compose goGrow chain12.1 [.int 3]).2.Compose goGrow
          (chain12.2.Compose goGrow chain12.1 [.int 3]).1 [.int 4, .int 5]).1
      = [.int 1, .int 2, .int 3, .int 4, .int 5] :=
  ⟨by decide,
    ((Compose_Compose_links goGrow chain12.1 chain12.2 [.int 3] [.int 4, .int 5]
      (by decide)).1.trans
      (Compose_Compose_links goGrow chain12.1 chain12.2 [.int 3] [.int 4, .int 5]
        (by decide)).2).trans (by decide)⟩

/-! ## More lemmas about `Build` -/

theorem evalLinks_append (env : Env) (S : List ReflectValue) (L1 L2 : List Value) :
    evalLinks env S (L1 ++ L2) =
      match evalLinks env S L2 with
      | .error e => .error e
      | .ok S2 => evalLinks env S2 L1 := by
  induction L1 with
  | nil =>
    simp only [List.nil_append]
    cases evalLinks env S L2 <;> rfl
  | cons x xs ih =>
    show evalLinks env S (x :: (xs ++ L2)) = _
    simp only [evalLinks]
    rw [ih]
    cases evalLinks env S L2 <;> rfl

theorem dynType_eq_some {v : Value} {t : GoType} (h : dynType v = some t) :
    ValueOf v = ofTyped (t, v) := by
  cases v <;> simp [dynType, ValueOf, ReflectValue.content, ofTyped] at h ⊢ <;> exact h

theorem step_literal (env : Env) (v : Value) (t : GoType) (T : List (GoType × Value))
    (hv : ValueOf v = ofTyped (t, v)) (hfun : ∀ s i, v ≠ Value.func s i) :
    step env v (stackOf T) = .ok (stackOf ((t, v) :: T)) := by
  rw [stackOf_cons, ← hv]
  cases v with
  | func s i => exact absurd rfl (hfun s i)
  | _ => rfl

/-- A literal other than `nil` is pushed with its dynamic type. -/
theorem typedResult_literal (env : Env) (v : Value) (t : GoType) (L : List Value)
    (T : List (GoType × Value))
    (hv : ValueOf v = ofTyped (t, v)) (hfun : ∀ s i, v ≠ Value.func s i)
    (hT : typedResult env L = .ok T) :
    typedResult env (v :: L) = .ok ((t, v) :: T) := by
  rw [typedResult_cons env v L T hT, step_literal env v t T hv hfun]
  simp [contents_stackOf]

/-- Literal links that carry the types of `T` leave the stack `T`. -/
theorem evalLinks_literals (env : Env) (T : List (GoType × Value))
    (hfun : ∀ tv ∈ T, ∀ s i, tv.2 ≠ Value.func s i)
    (hty : ∀ tv ∈ T, ValueOf tv.2 = ofTyped tv) :
    evalLinks env [] (T.map Prod.snd) = .ok (stackOf T) := by
  induction T with
  | nil => rfl
  | cons x xs ih =>
    simp only [List.map_cons, evalLinks]
    rw [ih (fun tv h => hfun tv (by simp [h])) (fun tv h => hty tv (by simp [h]))]
    exact step_literal env x.2 x.1 xs (hty x (by simp)) (hfun x (by simp))

/-- Building a chain after its suffix `L2` was replaced by the values `L2`
builds to, taken as literals. -/
theorem Build_suffix (env : Env) (L1 L2 : List Value) (T : List (GoType × Value))
    (hT : typedResult env L2 = .ok T)
    (hfun : ∀ tv ∈ T, ∀ s i, tv.2 ≠ Value.func s i)
    (hty : ∀ tv ∈ T, ValueOf tv.2 = ofTyped tv) :
    Build env (L1 ++ L2) = Build env (L1 ++ T.map Prod.snd) := by
  have h2 := (typedResult_ok_iff env L2 T).1 hT
  have h3 := evalLinks_literals env T hfun hty
  unfold Build
  rw [evalLinks_append, evalLinks_append, h2, h3]

theorem callFunc_callArgs (env : Env) (sig : FuncSig) (id : Nat) (S0 S : List ReflectValue)
    (k : Nat) (hres : resolveArgs sig S0 = .ok (S, (k : Int)))
    (hk : k ≤ S.length) (hS : S.length < 9223372036854775808) :
    callFunc env sig id S0 =
      match Call env sig id (callArgs S k) with
      | .error e => .error e
      | .ok rets => .ok (S.take (S.length - k) ++ rets.reverse) := by
  unfold callFunc callArgs
  simp only [hres]
  have hd : wrapInt ((S.length : Int) - (k : Int)) = ((S.length - k : Nat) : Int) := by
    rw [wrapInt_of_range _ (by omega) (by omega)]
    omega
  rw [hd]
  have h1 : ¬ (((S.length - k : Nat) : Int) < 0) := by omega
  have h2 : ¬ ((k : Int) < 0) := by omega
  simp only [h1, h2, if_false, Int.toNat_ofNat]
  cases Call env sig id
      (reverseFill k 0 (List.drop (S.length - k) S) (List.replicate k ReflectValue.zero)) with
  | error e => rfl
  | ok rets => simp only [reverseFill_eq_reverse]

theorem callArgs_eq_reverse (S : List ReflectValue) (k : Nat) (hk : k ≤ S.length) :
    callArgs S k = (S.drop (S.length - k)).reverse := by
  unfold callArgs
  have hlen : (S.drop (S.length - k)).length = k := by simp; omega
  have := reverseFill_eq_reverse (S.drop (S.length - k)) ReflectValue.zero
  rw [hlen] at this
  exact this

theorem callArgs_getElem? (S : List ReflectValue) (k j : Nat) (hk : k ≤ S.length) (hj : j < k) :
    (callArgs S k)[j]? = S[S.length - 1 - j]? := by
  rw [callArgs_eq_reverse S k hk, List.getElem?_reverse (by simp; omega)]
  simp only [List.length_drop, List.getElem?_drop]
  congr 1
  omega

theorem callFunc_variadic_nil (env : Env) (sig : FuncSig) (id : Nat) (vt : GoType)
    (hv : sig.variadic = some vt) (hp : sig.NumIn < 9223372036854775808) :
    callFunc env sig id [] = .error .incompleteChain := by
  have hres : resolveArgs sig [] = .ok ([], ((sig.NumIn : Nat) : Int)) := by
    simp [resolveArgs, hv]
  have hN : sig.NumIn = sig.fixed + 1 := by simp [FuncSig.NumIn, hv]
  unfold callFunc
  simp only [hres, List.length_nil]
  rw [wrapInt_of_range _ (by omega) (by omega)]
  have : ((0 : Nat) : Int) - ((sig.NumIn : Nat) : Int) < 0 := by omega
  rw [if_pos this]
/-! ## More claims about `Build` -/

/-- C11, at the failing input: on the chain `[varFunc, VarArgs(-2)]` the
marker resolves `m = 2 + (-2) - 1 = -1` on an empty stack, the test
`n - m < 0` passes, and `make([]reflect.Value, -1)` panics with a run-time
error, whatever the callables do (none is invoked); this is not the
IncompleteChain failure. A `nil` link under a variadic function fails in
`Interface()`, again not with IncompleteChain. -/
theorem build_negative_count (env : Env) :
    resolveArgs varFuncSig [ValueOf (Value.varArgs (-2))] = .ok ([], -1) ∧
    Build env [varFunc, Value.varArgs (-2)] = .error .runtimeError ∧
    Build returningEnv [varFunc, Value.varArgs (-2)] = .error .runtimeError ∧
    Build env [varFunc, Value.nil] = .error .zeroValue := by
  refine ⟨by decide, rfl, rfl, rfl⟩

/-- C17, as worded, fails: for the chain `[f3, 2, 4, 8]` the stack holds
`8, 4, 2` from the bottom (`8` pushed first, `2` last) when `f3` is called
with `m = 3`. The code binds position 1 to `2`, the top of the stack; step 4e
as worded binds it to `8`, the deepest value, and would call `f3(8, 4, 2)`
with the results `(32, 8)`, where `Build` returns `[8, 32]`. -/
theorem call_args_order_counterexample :
    evalLinks testEnv [] [.int 2, .int 4, .int 8]
      = .ok stack842 ∧
    resolveArgs f3Sig stack842
      = .ok (stack842, 3) ∧
    callArgs stack842 3
      = [.mk .int (.int 2), .mk .int (.int 4), .mk .int (.int 8)] ∧
    argsByStep4e stack842 3
      = stack842 ∧
    callArgs stack842 3
      ≠ argsByStep4e stack842 3 ∧
    Build testEnv [f3, .int 2, .int 4, .int 8] = .ok [.int 8, .int 32] ∧
    Call testEnv f3Sig 5
        (argsByStep4e stack842 3)
      = .ok [.mk .int (.int 32), .mk .int (.int 8)] := by
  decide

/-- C17, amended: whenever `Build` takes the `m ≥ 2` arguments of a function
off the evaluation stack, argument position 1 (the leftmost parameter) is
bound to the top of the stack, the value pushed last, position `j + 1` to the
value `j` places below the top, and position `m` to the deepest of the `m`
values taken, the one pushed first; the results are pushed last result
first. -/
theorem call_args_order (env : Env) (sig : FuncSig) (id : Nat) (S0 S : List ReflectValue)
    (m : Nat) (hres : resolveArgs sig S0 = .ok (S, (m : Int)))
    (hm2 : 2 ≤ m) (hm : m ≤ S.length) (hS : S.length < 2 ^ 63) :
    callFunc env sig id S0 =
      (match Call env sig id (callArgs S m) with
      | .error e => .error e
      | .ok rets => .ok (S.take (S.length - m) ++ rets.reverse)) ∧
    (callArgs S m)[0]? = S[S.length - 1]? ∧
    (callArgs S m)[m - 1]? = S[S.length - m]? ∧
    ∀ j, j < m → (callArgs S m)[j]? = S[S.length - 1 - j]? := by
  refine ⟨callFunc_callArgs env sig id S0 S m hres hm (by norm_num at hS; omega), ?_, ?_, ?_⟩
  · exact callArgs_getElem? S m 0 hm (by omega)
  · rw [callArgs_getElem? S m (m - 1) hm (by omega)]
    congr 1
    omega
  · intro j hj
    exact callArgs_getElem? S m j hm hj

/-- The call of `f3` in `[f3, 2, 4, 8]`: the stack is `8, 4, 2` from the
bottom and the arguments are `(2, 4, 8)`. -/
theorem call_args_order_witness :
    resolveArgs f3Sig stack842
      = .ok (stack842, ((3 : Nat) : Int)) ∧
    (callArgs stack842 3)[0]?
      = some (.mk .int (.int 2)) ∧
    (callArgs stack842 3)[3 - 1]?
      = some (.mk .int (.int 8)) :=
  ⟨by decide,
    (call_args_order testEnv f3Sig 5 stack842 stack842 3
      (by decide) (by decide) (by decide) (by norm_num [stack842])).2.1.trans (by decide),
    (call_args_order testEnv f3Sig 5 stack842 stack842 3
      (by decide) (by decide) (by decide) (by norm_num [stack842])).2.2.1.trans (by decide)⟩

/-- C18, as worded, fails: in Scenario A `f(10, 1, 2)` is `30`, and `Build`
of `[f, 10, 1, 2, g, "dog", 9]` returns `[60, "dog", 9]`: the result `3` of
`g` is an `int` on the stack, the run of `int`s after the fixed argument has
length 3, and the first result is `f(10, 1, 2, 3)`. -/
theorem scenarioA_counterexample :
    testEnv 1 [(.int, .int 10), (.int, .int 1), (.int, .int 2)] = some [(.int, .int 30)] ∧
    testEnv 1 [(.int, .int 10), (.int, .int 1), (.int, .int 2), (.int, .int 3)]
      = some [(.int, .int 60)] ∧
    typedResult testEnv [.int 10, .int 1, .int 2, simpleFunc, .str "dog", .int 9]
      = .ok [(.int, .int 10), (.int, .int 1), (.int, .int 2), (.int, .int 3),
          (.string, .str "dog"), (.int, .int 9)] ∧
    Build testEnv [varFunc, .int 10, .int 1, .int 2, simpleFunc, .str "dog", .int 9]
      = .ok [.int 60, .str "dog", .int 9] ∧
    Build testEnv [varFunc, .int 10, .int 1, .int 2, simpleFunc, .str "dog", .int 9]
      ≠ .ok [.int 30, .str "dog", .int 9] := by
  decide

/-- C18, amended: in Scenario A, whatever `f` computes, when `g` returns the
`int` 3 `Build` of `[f, 10, 1, 2, g, "dog", 9]` invokes `f` with exactly the
arguments `(10, 1, 2, 3)`: the greedy match takes the result of `g` too and
stops at `"dog"`; the result is `f(10, 1, 2, 3)` followed by `"dog", 9`. -/
theorem scenarioA_call (env : Env) (hg : env 2 [] = some [(GoType.int, Value.int 3)]) :
    Build env [varFunc, .int 10, .int 1, .int 2, simpleFunc, .str "dog", .int 9] =
      match env 1 [(.int, .int 10), (.int, .int 1), (.int, .int 2), (.int, .int 3)] with
      | none => .error .callPanic
      | some rets => .ok (rets.map Prod.snd ++ [.str "dog", .int 9]) := by
  have h0 : typedResult env [.str "dog", .int 9]
      = .ok [(.string, .str "dog"), (.int, .int 9)] := rfl
  have h1 : typedResult env [simpleFunc, .str "dog", .int 9]
      = .ok [(.int, .int 3), (.string, .str "dog"), (.int, .int 9)] := by
    have := typedResult_func env simpleFuncSig 2 _ _ _ 0 h0
      (resolveArgs_nonvariadic simpleFuncSig _ rfl) (by simp) (by simp)
    simp only [simpleFunc]
    rw [this]
    simp [invoke, simpleFuncSig, hg, Except.map]
  have h2 := typedResult_literal env (.int 2) .int _ _ rfl (by intro s i h; cases h) h1
  have h3 := typedResult_literal env (.int 1) .int _ _ rfl (by intro s i h; cases h) h2
  have h4 := typedResult_literal env (.int 10) .int _ _ rfl (by intro s i h; cases h) h3
  have hres := resolveArgs_greedy varFuncSig .int (.int, .int 10)
    [(.int, .int 1), (.int, .int 2), (.int, .int 3), (.string, .str "dog"), (.int, .int 9)]
    rfl (by intro k h; cases h)
  have hk : varFuncSig.fixed + runLength GoType.int varFuncSig.fixed
      [(GoType.int, Value.int 10), (.int, .int 1), (.int, .int 2), (.int, .int 3),
        (.string, .str "dog"), (.int, .int 9)] = 4 := by decide
  rw [hk] at hres
  have := Build_func_of_resolve env varFuncSig 1 _ _ _ 4 h4 hres (by simp) (by simp)
    (by decide) (by intro h; cases h)
  simpa [varFunc] using this

/-- Scenario A with the functions of the test: `f(10, 1, 2, 3) = 60` and the
chain builds to `[60, "dog", 9]`. -/
theorem scenarioA_call_witness :
    testEnv 2 [] = some [(GoType.int, Value.int 3)] ∧
    Build testEnv [varFunc, .int 10, .int 1, .int 2, simpleFunc, .str "dog", .int 9]
      = .ok [.int 60, .str "dog", .int 9] :=
  ⟨by decide, (scenarioA_call testEnv (by decide)).trans (by decide)⟩

/-- C20: for every variadic function `f`, also one whose only parameter is the
variadic one, wherever `f` stands in the chain (after any links `P`), when
the evaluation stack is empty at the time `f` is evaluated (`f` is the last
link, or the links `L` after it evaluate to no values) `Build` fails with
IncompleteChain: the function branch on the empty stack fails before any
call, so a call with no variadic argument is made only from a non-empty
stack. The number of parameters is a Go `int`, below `2^63`. -/
theorem build_variadic_empty_stack (env : Env) (sig : FuncSig) (id : Nat) (vt : GoType)
    (P L : List Value)
    (hv : sig.variadic = some vt)
    (hL : evalLinks env [] L = .ok [])
    (hp : sig.NumIn < 2 ^ 63) :
    callFunc env sig id [] = .error .incompleteChain ∧
    Build env (.func sig id :: L) = .error .incompleteChain ∧
    Build env (P ++ .func sig id :: L) = .error .incompleteChain := by
  have hc := callFunc_variadic_nil env sig id vt hv (by norm_num at hp; omega)
  refine ⟨hc, ?_, ?_⟩
  · unfold Build
    simp only [evalLinks, hL, step, hc]
  · unfold Build
    rw [evalLinks_append]
    simp only [evalLinks, hL, step, hc]

/-- A function whose only parameter is variadic: as the only link, as the
last link of `[simpleFunc, g]`, in front of a function without results, and
between the two, `Build` fails with IncompleteChain. On the non-empty stack
of `[varFunc, 10, "dog"]` the call `varFunc(10)` with no variadic argument is
made. -/
theorem build_variadic_empty_stack_witness :
    variadicOnlySig.variadic = some GoType.int ∧
    evalLinks testEnv [] [f, .int 7] = .ok [] ∧
    Build testEnv [.func variadicOnlySig 8] = .error .incompleteChain ∧
    Build testEnv ([simpleFunc] ++ [.func variadicOnlySig 8]) = .error .incompleteChain ∧
    Build testEnv [.func variadicOnlySig 8, f, .int 7] = .error .incompleteChain ∧
    Build testEnv ([.int 1, simpleFunc] ++ .func variadicOnlySig 8 :: [f, .int 7])
      = .error .incompleteChain ∧
    Build testEnv [varFunc, .int 10, .str "dog"] = .ok [.int 0, .str "dog"] :=
  ⟨rfl, by decide,
    (build_variadic_empty_stack testEnv variadicOnlySig 8 .int [] [] rfl rfl
      (by norm_num [variadicOnlySig, FuncSig.NumIn])).2.1,
    (build_variadic_empty_stack testEnv variadicOnlySig 8 .int [simpleFunc] [] rfl rfl
      (by norm_num [variadicOnlySig, FuncSig.NumIn])).2.2,
    (build_variadic_empty_stack testEnv variadicOnlySig 8 .int [] [f, .int 7] rfl (by decide)
      (by norm_num [variadicOnlySig, FuncSig.NumIn])).2.1,
    (build_variadic_empty_stack testEnv variadicOnlySig 8 .int [.int 1, simpleFunc] [f, .int 7]
      rfl (by decide) (by norm_num [variadicOnlySig, FuncSig.NumIn])).2.2,
    by decide⟩

theorem not_func_of_Kind {v : Value} (h : (ValueOf v).Kind ≠ Kind.Func) :
    ∀ s i, v ≠ Value.func s i := by
  intro s i hv
  exact h ((Kind_ValueOf_func v).2 ⟨s, i, hv⟩)

/-- The result of `Build` on a chain in a heap is that of `Build` on its links. -/
theorem Chain_Build_result (env : Env) (h : Heap) (c : Chain) :
    (c.Build env h).2.map (fun s => s.elems (c.Build env h).1) = Build env (c.seq h) := by
  unfold Chain.Build Chain.seq
  cases hB : Build env (c.links.elems h) with
  | error e => rfl
  | ok vals =>
    simp only [Except.map, Slice.elems, Slice.array]
    rw [getD_append_new]
    simp

/-- `Build` writes into no array that was there before. -/
theorem Chain_Build_frame (env : Env) (h : Heap) (c : Chain) (o : Slice) (ho : o.WF h) :
    o.elems (c.Build env h).1 = o.elems h := by
  unfold Chain.Build
  cases hB : Build env (c.links.elems h) with
  | error e => rfl
  | ok vals => exact Slice.elems_append h _ o ho

theorem Build_single_func (env : Env) (sig : FuncSig) (id : Nat)
    (hnv : sig.variadic = none) (h1 : sig.NumIn = 1) :
    Build env [Value.func sig id] = .error .incompleteChain := by
  have hN : sig.NumIn = sig.fixed := by simp [FuncSig.NumIn, hnv]
  rw [Build_eq_typedResult, typedResult_func_short env sig id [] [] [] sig.fixed rfl
    (resolveArgs_nonvariadic sig _ hnv) (by simp; omega) (by omega)]
  rfl

theorem Build_func_literal (env : Env) (sig : FuncSig) (id : Nat) (v : Value) (t : GoType)
    (hnv : sig.variadic = none) (h1 : sig.NumIn = 1)
    (hv : dynType v = some t) (hfun : (ValueOf v).Kind ≠ Kind.Func) :
    Build env [Value.func sig id, v] =
      match env id [(t, v)] with
      | none => .error .callPanic
      | some rets => .ok (rets.map Prod.snd) := by
  have hN : sig.NumIn = sig.fixed := by simp [FuncSig.NumIn, hnv]
  have hT := typedResult_literal env v t [] [] (dynType_eq_some hv) (not_func_of_Kind hfun) rfl
  have := Build_func_of_resolve env sig id [v] [(t, v)] [(t, v)] sig.fixed hT
    (resolveArgs_nonvariadic sig _ hnv) (by simp; omega) (by simp) (le_refl _)
    (fun _ => le_refl _)
  rw [this]
  have h1' : sig.fixed = 1 := by omega
  rw [h1']
  simp only [List.take_succ_cons, List.take_zero, List.map_cons, List.map_nil,
    List.drop_succ_cons, List.drop_zero, List.append_nil]

/-- C19, as worded, fails: `[simpleFunc, "dog"]` builds to `[3, "dog"]`, no
function value, each value under the type it has as a literal; in front of
it `f2`, which takes two `int`s, is called on `(3, "dog")` and the call
panics. `Build` of `[f2, simpleFunc, "dog"]` and of `[f2, 3, "dog"]` both fail,
and not with IncompleteChain. -/
theorem build_suffix_first_counterexample :
    typedResult testEnv [simpleFunc, .str "dog"]
      = .ok [(.int, .int 3), (.string, .str "dog")] ∧
    Build testEnv [simpleFunc, .str "dog"] = .ok [.int 3, .str "dog"] ∧
    (∀ tv ∈ [(GoType.int, Value.int 3), (GoType.string, Value.str "dog")],
      (ValueOf tv.2).Kind ≠ Kind.Func) ∧
    (∀ tv ∈ [(GoType.int, Value.int 3), (GoType.string, Value.str "dog")],
      ValueOf tv.2 = ofTyped tv) ∧
    Build testEnv ([f2] ++ [simpleFunc, .str "dog"]) = .error .callPanic ∧
    Build testEnv ([f2] ++ [.int 3, .str "dog"]) = .error .callPanic := by
  decide

/-- C19, amended: when `Build` of `L2` succeeds, no value of its result is a
function value and each value has as a literal the type it carries on the
stack, `Build` of `L1 ++ L2` and `Build` of `L1` followed by these values
have the same outcome: the same result sequence, or the same failure. In
particular `Build` of the chain made of the values returns them. -/
theorem build_suffix_first (env : Env) (L1 L2 : List Value) (T : List (GoType × Value))
    (hT : typedResult env L2 = .ok T)
    (hfun : ∀ tv ∈ T, (ValueOf tv.2).Kind ≠ Kind.Func)
    (hty : ∀ tv ∈ T, ValueOf tv.2 = ofTyped tv) :
    Build env L2 = .ok (T.map Prod.snd) ∧
    Build env (L1 ++ L2) = Build env (L1 ++ T.map Prod.snd) ∧
    Build env (T.map Prod.snd) = .ok (T.map Prod.snd) := by
  have hB : Build env L2 = .ok (T.map Prod.snd) := (Build_ok_iff env L2 _).2 ⟨T, hT, rfl⟩
  have hf : ∀ tv ∈ T, ∀ s i, tv.2 ≠ Value.func s i := fun tv h => not_func_of_Kind (hfun tv h)
  refine ⟨hB, Build_suffix env L1 L2 T hT hf hty, ?_⟩
  have := Build_suffix env [] L2 T hT hf hty
  simp only [List.nil_append] at this
  rw [← this, hB]

/-- The suffix `[10, simpleFunc, "dog"]` builds to `[10, 3, "dog"]`; with
`varFunc` in front both `[varFunc, 10, simpleFunc, "dog"]` and
`[varFunc, 10, 3, "dog"]` build to `[30, "dog"]`. -/
theorem build_suffix_first_witness :
    typedResult testEnv [.int 10, simpleFunc, .str "dog"]
      = .ok [(.int, .int 10), (.int, .int 3), (.string, .str "dog")] ∧
    Build testEnv ([varFunc] ++ [.int 10, simpleFunc, .str "dog"])
      = Build testEnv ([varFunc] ++ [.int 10, .int 3, .str "dog"]) ∧
    Build testEnv ([varFunc] ++ [.int 10, simpleFunc, .str "dog"]) = .ok [.int 30, .str "dog"] :=
  ⟨by decide,
    (build_suffix_first testEnv [varFunc] [.int 10, simpleFunc, .str "dog"]
      [(.int, .int 10), (.int, .int 3), (.string, .str "dog")]
      (by decide) (by decide) (by decide)).2.1,
    by decide⟩

/-- C14, as worded, fails: `f` takes one `int`; `Build` of `[f]` fails with
IncompleteChain and the chain is still `[f]`, but after composing the literal
`"dog"` the chain `[f, "dog"]` does not build: the call of `f` on a string
panics inside `value.Call`. -/
theorem rebuild_after_compose_counterexample :
    chainF.2.seq chainF.1 = [f] ∧
    Build testEnv (chainF.2.seq chainF.1) = .error .incompleteChain ∧
    (chainF.2.Compose goGrow chainF.1 [.str "dog"]).2.seq
        (chainF.2.Compose goGrow chainF.1 [.str "dog"]).1 = [f, .str "dog"] ∧
    Build testEnv ((chainF.2.Compose goGrow chainF.1 [.str "dog"]).2.seq
        (chainF.2.Compose goGrow chainF.1 [.str "dog"]).1) = .error .callPanic := by
  decide

/-- C14, amended: `Build` does not change the chain it evaluates, whether it
succeeds or fails. For every function `f` with one parameter, not variadic,
and every literal `v` other than `nil`: `Build` of the chain `[f]` fails with
IncompleteChain and leaves the heap as it was, so the links are still `[f]`;
`Compose([f], v)` has the links `[f, v]`, and `Build` of it invokes `f` on
`v`: it returns the return values of `f(v)` when that call returns, and fails
with the panic of the call otherwise; the links are `[f, v]` afterwards. -/
theorem rebuild_after_compose (env : Env) (grow : Nat → Nat → Nat) (h : Heap) (c : Chain)
    (sig : FuncSig) (id : Nat) (v : Value) (t : GoType) (r : Heap × Chain)
    (hnv : sig.variadic = none) (h1 : sig.NumIn = 1)
    (hv : dynType v = some t) (hfun : (ValueOf v).Kind ≠ Kind.Func)
    (hc : c.links.WF h) (hseq : c.seq h = [Value.func sig id])
    (hr : r = c.Compose grow h [v]) :
    c.Build env h = (h, .error .incompleteChain) ∧
    c.seq (c.Build env h).1 = [Value.func sig id] ∧
    r.2.seq r.1 = [Value.func sig id, v] ∧
    Build env (r.2.seq r.1) =
      (match env id [(t, v)] with
      | none => .error .callPanic
      | some rets => .ok (rets.map Prod.snd)) ∧
    r.2.seq (r.2.Build env r.1).1 = [Value.func sig id, v] := by
  have hB : Build env (c.links.elems h) = .error .incompleteChain := by
    have := Build_single_func env sig id hnv h1
    rw [← hseq] at this
    exact this
  have hr1 : r.2.seq r.1 = [Value.func sig id, v] := by
    rw [hr, Compose_seq grow h c [v] hc, hseq]
    rfl
  have hcb : c.Build env h = (h, .error .incompleteChain) := by
    simp only [Chain.Build, hB]
  refine ⟨hcb, ?_, hr1, ?_, ?_⟩
  · rw [hcb]; exact hseq
  · rw [hr1]; exact Build_func_literal env sig id v t hnv h1 hv hfun
  · have hw : r.2.links.WF r.1 := by rw [hr]; exact Compose_WF grow h c [v] hc
    have := Chain_Build_frame env r.1 r.2 r.2.links hw
    simp only [Chain.seq] at hr1 ⊢
    rw [this, hr1]

/-- The chain `[f]` of `TestIncompleteBuildShouldPanic` fails to build and is
still `[f]`; after `Compose(7)` the chain `[f, 7]` builds to the results of
`f(7)`, of which there are none. -/
theorem rebuild_after_compose_witness :
    fSig.variadic = none ∧ fSig.NumIn = 1 ∧ dynType (Value.int 7) = some GoType.int ∧
    chainF.2.links.WF chainF.1 ∧ chainF.2.seq chainF.1 = [Value.func fSig 6] ∧
    chainF.2.Build testEnv chainF.1 = (chainF.1, .error .incompleteChain) ∧
    Build testEnv ((chainF.2.Compose goGrow chainF.1 [.int 7]).2.seq
        (chainF.2.Compose goGrow chainF.1 [.int 7]).1) = .ok [] :=
  ⟨rfl, rfl, rfl, by decide, by decide,
    (rebuild_after_compose testEnv goGrow chainF.1 chainF.2 fSig 6 (.int 7) .int _
      rfl rfl rfl (by decide) (by decide) (by decide) rfl).1,
    (rebuild_after_compose testEnv goGrow chainF.1 chainF.2 fSig 6 (.int 7) .int _
      rfl rfl rfl (by decide) (by decide) (by decide) rfl).2.2.2.1.trans (by decide)⟩

end Gostrich
